import Mathlib

/-! CoinRun simulation systems (procgen2): a shallow embedding.

Embedding of `src/games/coinrun/common_systems.cpp` and
`src/games/coinrun/helpers.cpp`.

Conventions of the embedding:
* C++ `float` values are exact rationals (`ℚ`); rounding, infinities and NaN
  are outside the model.
* The tile map (`System_Tilemap`, declared in `tilemap.h`) is an external
  collaborator: its state is a type parameter `TM` and its three operations
  are the fields of `Tilemap_Ops`.
* The component registry is represented by per-entity stores
  (`Entity → Component`), and the entity set of a system by the list of its
  entities in iteration order.
-/

namespace Coinrun

/-! ## Data model -/

/-- Entities are opaque identifiers. -/
abbrev Entity := Nat

/-- Two floats (raylib `Vector2`). -/
structure Vector2 where
  x : ℚ
  y : ℚ
  deriving DecidableEq, Repr

/-- Axis-aligned rectangle (raylib `Rectangle`): top-left corner and extent. -/
structure Rectangle where
  x : ℚ
  y : ℚ
  width : ℚ
  height : ℚ
  deriving DecidableEq, Repr

/-- Texture handle (raylib `Texture2D`): identifier and pixel extent. -/
structure Texture2D where
  id : Nat
  width : Int
  height : Int
  deriving DecidableEq, Repr

/-- Modelled from the spec: the enumeration `Tile_ID` is declared in
`tilemap.h`, which is not part of the sources at hand.  The four enumerators
the systems name are kept; every other enumerator is `other k`. -/
inductive Tile_ID where
  | empty
  | wall_mid
  | wall_top
  | crate
  | other (k : Nat)
  deriving DecidableEq, Repr

/-- Modelled from the spec: the collision classes `{full, down_only, none}`
of `tilemap.h`. -/
inductive Collision_Type where
  | none
  | full
  | down_only
  deriving DecidableEq, Repr

/-- The operations of the tile map the systems call, over a tile-map state
`TM`.  `get_collision_offset` is a query; the two `no_collide` operations
return the changed tile map. -/
structure Tilemap_Ops (TM : Type) where
  get_collision_offset : TM → Rectangle → (Tile_ID → Collision_Type) → Vector2
  set_no_collide : TM → ℚ → ℚ → TM
  update_no_collide : TM → Rectangle → Rectangle → TM

structure Component_Transform where
  position : Vector2
  rotation : ℚ
  scale : ℚ
  deriving DecidableEq, Repr

structure Component_Agent where
  action : Int
  on_ground : Bool
  deriving DecidableEq, Repr

structure Component_Dynamics where
  velocity : Vector2
  deriving DecidableEq, Repr

structure Component_Collision where
  bounds : Rectangle
  deriving DecidableEq, Repr

structure Component_Mob_AI where
  velocity_x : ℚ
  deriving DecidableEq, Repr

/-! ## System_Agent -/

namespace System_Agent

def max_jump : ℚ := 3 / 2
def gravity : ℚ := 1 / 5
def max_speed : ℚ := 1 / 2
def mix : ℚ := 1 / 5
def air_control : ℚ := 3 / 20

/-- The components of the single player entity together with the tile map
and the camera target (`assert(entities.size() == 1)`). -/
structure World (TM : Type) where
  agent : Component_Agent
  transform : Component_Transform
  dynamics : Component_Dynamics
  collision : Component_Collision
  tilemap : TM
  camera_target : Vector2

/-- The value of a C++ `bool` used as an `int`. -/
def bool_to_int (b : Bool) : Int := if b then 1 else 0

/-- Line 153: `(action == 0 || action == 1) - (action == 6 || action == 7)`. -/
def movement_x (action : Int) : ℚ :=
  ((bool_to_int (action == 0 || action == 1)
    - bool_to_int (action == 6 || action == 7) : Int) : ℚ)

/-- Line 154. -/
def jump (action : Int) : Bool :=
  action == 2 || action == 5 || action == 8

/-- Line 155. -/
def fallthrough (action : Int) : Bool :=
  action == 0 || action == 3 || action == 6

/-- The classifier of the agent's collision query (line 185). -/
def classify (id : Tile_ID) : Collision_Type :=
  if id = Tile_ID.wall_mid ∨ id = Tile_ID.wall_top then Collision_Type.full
  else if id = Tile_ID.crate then Collision_Type.down_only
  else Collision_Type.none

/-- The body of `System_Agent::update(dt, camera)` for the player entity. -/
def update {TM : Type} (ops : Tilemap_Ops TM) (dt : ℚ) (w : World TM) : World TM :=
  let agent := w.agent
  let transform := w.transform
  let dynamics := w.dynamics
  let collision := w.collision
  let tilemap := w.tilemap
  -- World space collision
  let world_collision : Rectangle :=
    ⟨transform.position.x + collision.bounds.x, transform.position.y + collision.bounds.y,
      collision.bounds.width, collision.bounds.height⟩
  let movement_x := movement_x agent.action
  let jump := jump agent.action
  let fallthrough := fallthrough agent.action
  -- Velocity control
  let mix_x : ℚ := if agent.on_ground then mix else mix * air_control
  let vx : ℚ := dynamics.velocity.x + mix_x * (max_speed * movement_x - dynamics.velocity.x)
  let vx : ℚ := if |vx| < mix_x * max_speed then 0 else vx
  let vy : ℚ := if jump then -max_jump else dynamics.velocity.y
  let tilemap : TM :=
    if jump then tilemap
    else if fallthrough then ops.set_no_collide tilemap transform.position.x transform.position.y
    else tilemap
  let vy : ℚ := if !agent.on_ground then vy - gravity * dt else vy
  -- Max fall speed is jump speed
  let vy : ℚ := if |vy| > max_jump then (if vy > 0 then 1 else -1) * max_jump else vy
  -- Update no collide mask
  let tilemap : TM := ops.update_no_collide tilemap world_collision
    ⟨transform.position.x - 8, transform.position.x - 8, 16, 16⟩
  -- Move
  let px : ℚ := transform.position.x + vx * dt
  let py : ℚ := transform.position.y + vy * dt
  let offset : Vector2 := ops.get_collision_offset tilemap collision.bounds classify
  -- If moved up, on ground
  let on_ground : Bool := decide (offset.y ≥ 0)
  -- Correct position
  let position : Vector2 := ⟨px + offset.x, py + offset.y⟩
  { agent := { agent with on_ground := on_ground }
    transform := { transform with position := position }
    dynamics := { velocity := ⟨vx, vy⟩ }
    collision := collision
    tilemap := tilemap
    camera_target := position }

/-- The external controller sets `agent.action`, then the system is updated. -/
def step {TM : Type} (ops : Tilemap_Ops TM) (w : World TM) (input : Int × ℚ) : World TM :=
  update ops input.2 { w with agent := { w.agent with action := input.1 } }

/-- A sequence of controlled steps, one `(action, dt)` pair per step. -/
def run {TM : Type} (ops : Tilemap_Ops TM) (w : World TM) (inputs : List (Int × ℚ)) : World TM :=
  inputs.foldl (step ops) w

/-- The triple `(movement_x, jump, fallthrough)` decoded from an action code. -/
def decode (action : Int) : ℚ × Bool × Bool :=
  (movement_x action, jump action, fallthrough action)

end System_Agent

/-! ## System_Mob_AI -/

namespace System_Mob_AI

/-- The patrol entities of the system with their component stores. -/
structure World where
  entities : List Entity
  mob_ai : Entity → Component_Mob_AI
  transform : Entity → Component_Transform

/-- Line 88, from the position after the move. -/
def wall_sensor (position : Vector2) : Rectangle :=
  ⟨position.x + 1 / 2, position.y - 11 / 10, 1, 1 / 2⟩

/-- Line 89. -/
def floor_sensor_left (position : Vector2) : Rectangle :=
  ⟨position.x - 1 / 2, position.y + 1 / 10, 1, 4 / 5⟩

/-- Line 90. -/
def floor_sensor_right (position : Vector2) : Rectangle :=
  ⟨position.x + 3 / 2, position.y + 1 / 10, 1, 4 / 5⟩

/-- The classifier of the wall-sensor query (line 93). -/
def wall_classify (id : Tile_ID) : Collision_Type :=
  if id = Tile_ID.wall_mid ∨ id = Tile_ID.wall_top then Collision_Type.full
  else Collision_Type.none

/-- The classifier of both floor-sensor queries (lines 97 and 101). -/
def floor_classify (id : Tile_ID) : Collision_Type :=
  if id = Tile_ID.empty then Collision_Type.full else Collision_Type.none

/-- The position of a patrol entity after the move of line 86. -/
def moved (mob_ai : Component_Mob_AI) (transform : Component_Transform) (dt : ℚ) : Vector2 :=
  ⟨transform.position.x + mob_ai.velocity_x * dt, transform.position.y⟩

/-- The loop body of `System_Mob_AI::update` (lines 81 to 109) on the two
components of one entity. -/
def update_components {TM : Type} (ops : Tilemap_Ops TM) (tilemap : TM) (dt : ℚ)
    (mob_ai : Component_Mob_AI) (transform : Component_Transform) :
    Component_Mob_AI × Component_Transform :=
  -- Move
  let position : Vector2 := moved mob_ai transform dt
  let wall_offset := ops.get_collision_offset tilemap (wall_sensor position) wall_classify
  let floor_offset_left :=
    ops.get_collision_offset tilemap (floor_sensor_left position) floor_classify
  let floor_offset_right :=
    ops.get_collision_offset tilemap (floor_sensor_right position) floor_classify
  let delta_x : ℚ := wall_offset.x + floor_offset_left.x + floor_offset_right.x
  let position : Vector2 := { position with x := position.x + delta_x }
  let velocity_x : ℚ :=
    if decide (delta_x > 0) != decide (mob_ai.velocity_x > 0) then mob_ai.velocity_x * (-1)
    else mob_ai.velocity_x -- Rebound
  ({ velocity_x := velocity_x }, { transform with position := position })

/-- The loop body for the entity `e` of the world. -/
def update_entity {TM : Type} (ops : Tilemap_Ops TM) (tilemap : TM) (dt : ℚ)
    (w : World) (e : Entity) : World :=
  let r := update_components ops tilemap dt (w.mob_ai e) (w.transform e)
  { w with
    mob_ai := Function.update w.mob_ai e r.1
    transform := Function.update w.transform e r.2 }

/-- `System_Mob_AI::update(dt)`: the loop over the entity set. -/
def update {TM : Type} (ops : Tilemap_Ops TM) (tilemap : TM) (dt : ℚ) (w : World) : World :=
  w.entities.foldl (update_entity ops tilemap dt) w

/-- The horizontal correction returned by the wall-sensor query of an entity
with the given components. -/
def wall_correction_x {TM : Type} (ops : Tilemap_Ops TM) (tilemap : TM) (dt : ℚ)
    (mob_ai : Component_Mob_AI) (transform : Component_Transform) : ℚ :=
  (ops.get_collision_offset tilemap (wall_sensor (moved mob_ai transform dt)) wall_classify).x

/-- The horizontal correction returned by the left floor-sensor query. -/
def floor_left_correction_x {TM : Type} (ops : Tilemap_Ops TM) (tilemap : TM) (dt : ℚ)
    (mob_ai : Component_Mob_AI) (transform : Component_Transform) : ℚ :=
  (ops.get_collision_offset tilemap (floor_sensor_left (moved mob_ai transform dt))
    floor_classify).x

/-- The horizontal correction returned by the right floor-sensor query. -/
def floor_right_correction_x {TM : Type} (ops : Tilemap_Ops TM) (tilemap : TM) (dt : ℚ)
    (mob_ai : Component_Mob_AI) (transform : Component_Transform) : ℚ :=
  (ops.get_collision_offset tilemap (floor_sensor_right (moved mob_ai transform dt))
    floor_classify).x

/-- A tile oracle for examples, on a one-state tile map: the wall query is
answered by `(wall_x, 0)`, a floor query by `(left_x, 0)` for a box starting
left of `x = 1` and by `(right_x, 0)` otherwise. -/
def sample_ops (wall_x left_x right_x : ℚ) : Tilemap_Ops Unit :=
  { get_collision_offset := fun _ box classify =>
      if classify Tile_ID.empty = Collision_Type.full then
        (if box.x < 1 then ⟨left_x, 0⟩ else ⟨right_x, 0⟩)
      else ⟨wall_x, 0⟩
    set_no_collide := fun t _ _ => t
    update_no_collide := fun t _ _ => t }

/-- One patrol actor at the origin moving right with speed 1. -/
def sample_world : World :=
  { entities := [0]
    mob_ai := fun _ => { velocity_x := 1 }
    transform := fun _ => { position := ⟨0, 0⟩, rotation := 0, scale := 1 } }

end System_Mob_AI

/-! ## System_Sprite_Render -/

structure Component_Sprite where
  position : Vector2
  rotation : ℚ
  scale : ℚ
  z : ℚ
  tint : Nat
  texture : Texture2D
  deriving DecidableEq, Repr

structure Component_Animation where
  frames : List Texture2D
  rate : ℚ
  t : ℚ
  frame_index : Nat
  deriving DecidableEq, Repr

/-- Modelled from the spec: the two render passes of `Sprite_Render_Mode`
(declared in `common_systems.h`). -/
inductive Sprite_Render_Mode where
  | positive_z
  | negative_z
  deriving DecidableEq, Repr

/-- What `System_Sprite_Render::render` takes from outside the sources at
hand: the trigonometric functions on floats, the unit conversion constants,
`rotated_scaled_AABB` and raylib's `CheckCollisionRecs`. -/
structure Render_Env where
  cos : ℚ → ℚ
  sin : ℚ → ℚ
  pixels_to_unit : ℚ
  unit_to_pixels : ℚ
  rotated_scaled_AABB : Rectangle → ℚ → ℚ → Rectangle
  CheckCollisionRecs : Rectangle → Rectangle → Bool

/-- The arguments of one `DrawTextureEx` call. -/
structure Draw_Call where
  texture : Texture2D
  position : Vector2
  rotation : ℚ
  scale : ℚ
  tint : Nat
  deriving DecidableEq, Repr

namespace System_Sprite_Render

/-- The entities of the system, the component stores (an entity without an
Animation component has `animation e = none`) and the render-order buffer. -/
structure World where
  entities : List Entity
  sprite : Entity → Component_Sprite
  animation : Entity → Option Component_Animation
  transform : Entity → Component_Transform
  render_entities : List (ℚ × Entity)

/-- The frame-advance loop (lines 23 to 27).  `fuel` bounds the number of
iterations; `none` is fuel exhausted with the loop condition still true, or
a remainder by an empty frame count. -/
def advance_frames : Nat → Component_Animation → Option Component_Animation
  | 0, animation => if animation.t ≥ animation.rate then none else some animation
  | fuel + 1, animation =>
    if animation.t ≥ animation.rate then
      if animation.frames.length = 0 then none
      else advance_frames fuel
        { animation with
          t := animation.t - animation.rate
          frame_index := (animation.frame_index + 1) % animation.frames.length }
    else some animation

/-- Lines 19 to 29 on the components of one animated entity: the new
Animation component and the texture assigned to the sprite.  `none` also
when `frame_index` is no index of `frames`. -/
def animate (fuel : Nat) (dt : ℚ) (animation : Component_Animation) :
    Option (Component_Animation × Texture2D) :=
  match advance_frames fuel { animation with t := animation.t + dt } with
  | none => none
  | some animation =>
    match animation.frames[animation.frame_index]? with
    | none => none
    | some texture => some (animation, texture)

/-- The loop body of `System_Sprite_Render::update` (lines 14 to 33). -/
def update_entity (fuel : Nat) (dt : ℚ) (w : World) (index : Nat) (e : Entity) :
    Option World :=
  let sprite := w.sprite e
  match w.animation e with
  | some animation =>
    match animate fuel dt animation with
    | none => none
    | some (animation, texture) =>
      let sprite := { sprite with texture := texture }
      some { w with
        sprite := Function.update w.sprite e sprite
        animation := Function.update w.animation e (some animation)
        render_entities := w.render_entities.set index (sprite.z, e) }
  | none => some { w with render_entities := w.render_entities.set index (sprite.z, e) }

/-- The loop of lines 13 to 34 with its running `index`. -/
def update_loop (fuel : Nat) (dt : ℚ) : List Entity → Nat → World → Option World
  | [], _, w => some w
  | e :: es, index, w =>
    match update_entity fuel dt w index e with
    | none => none
    | some w => update_loop fuel dt es (index + 1) w

/-- `std::vector::resize` with value-initialised new elements. -/
def resize {α : Type} (l : List α) (n : Nat) (d : α) : List α :=
  l.take n ++ List.replicate (n - l.length) d

/-- The comparator of the sort (line 38). -/
def z_less (left right : ℚ × Entity) : Bool := decide (left.1 < right.1)

/-- Insertion of one element before the first element it is less than. -/
def sort_insert {α : Type} (comp : α → α → Bool) (a : α) : List α → List α
  | [] => [a]
  | b :: l => if comp a b then a :: b :: l else b :: sort_insert comp a l

/-- `std::sort` with a comparator, as an insertion sort: the library fixes
the result only up to the order of equivalent elements. -/
def std_sort {α : Type} (comp : α → α → Bool) : List α → List α
  | [] => []
  | a :: l => sort_insert comp a (std_sort comp l)

/-- `System_Sprite_Render::update(dt)`. -/
def update (fuel : Nat) (dt : ℚ) (w : World) : Option World :=
  let render_entities :=
    if w.render_entities.length ≠ w.entities.length then
      resize w.render_entities w.entities.length (0, 0)
    else w.render_entities
  match update_loop fuel dt w.entities 0 { w with render_entities := render_entities } with
  | none => none
  | some w => some { w with render_entities := std_sort z_less w.render_entities }

/-- The world position of the sprite of `e` (lines 57 to 62). -/
def sprite_position (env : Render_Env) (w : World) (e : Entity) : Vector2 :=
  let sprite := w.sprite e
  let transform := w.transform e
  let cos_rot := env.cos transform.rotation
  let sin_rot := env.sin transform.rotation
  let offset : Vector2 :=
    ⟨cos_rot * sprite.position.x - sin_rot * sprite.position.y,
      sin_rot * sprite.position.x + cos_rot * sprite.position.y⟩
  ⟨transform.position.x + offset.x, transform.position.y + offset.y⟩

/-- The visibility test of line 71 for the sprite of `e`. -/
def visible (env : Render_Env) (w : World) (camera_aabb : Rectangle) (e : Entity) : Bool :=
  let sprite := w.sprite e
  let transform := w.transform e
  let position := sprite_position env w e
  let rotation := transform.rotation + sprite.rotation
  let scale := transform.scale * sprite.scale
  let aabb : Rectangle :=
    ⟨position.x, position.y, sprite.texture.width * env.pixels_to_unit,
      sprite.texture.height * env.pixels_to_unit⟩
  let aabb := env.rotated_scaled_AABB aabb rotation scale
  env.CheckCollisionRecs aabb camera_aabb

/-- The `DrawTextureEx` call of line 72 for the sprite of `e`. -/
def draw (env : Render_Env) (w : World) (e : Entity) : Draw_Call :=
  let sprite := w.sprite e
  let transform := w.transform e
  let position := sprite_position env w e
  let rotation := transform.rotation + sprite.rotation
  let scale := transform.scale * sprite.scale
  { texture := sprite.texture
    position := ⟨position.x * env.unit_to_pixels, position.y * env.unit_to_pixels⟩
    rotation := rotation
    scale := scale * env.unit_to_pixels / sprite.texture.width
    tint := sprite.tint }

/-- The loop of `System_Sprite_Render::render` over the render order, with
its `continue` and `break`; the result lists the draw calls in order, each
with the entity it draws. -/
def render_loop (env : Render_Env) (w : World) (camera_aabb : Rectangle)
    (mode : Sprite_Render_Mode) : List (ℚ × Entity) → List (Entity × Draw_Call)
  | [] => []
  | p :: rest =>
    let e := p.2
    let sprite := w.sprite e
    if mode = Sprite_Render_Mode.positive_z ∧ sprite.z < 0 then
      render_loop env w camera_aabb mode rest
    else if mode = Sprite_Render_Mode.negative_z ∧ sprite.z ≥ 0 then
      []
    else if visible env w camera_aabb e then
      (e, draw env w e) :: render_loop env w camera_aabb mode rest
    else
      render_loop env w camera_aabb mode rest

/-- `System_Sprite_Render::render(camera_aabb, mode)`. -/
def render (env : Render_Env) (w : World) (camera_aabb : Rectangle)
    (mode : Sprite_Render_Mode) : List (Entity × Draw_Call) :=
  render_loop env w camera_aabb mode w.render_entities

/-- The Animation component after `k` passes through the loop body. -/
def advanced (animation : Component_Animation) (k : Nat) : Component_Animation :=
  { animation with
    t := animation.t - k * animation.rate
    frame_index := (animation.frame_index + k) % animation.frames.length }

/-- The number of whole frame durations elapsed once `dt` is added to `t`:
`floor((t + dt) / rate)`. -/
def elapsed_frames (animation : Component_Animation) (dt : ℚ) : Nat :=
  ⌊(animation.t + dt) / animation.rate⌋₊

/-- The Animation component the specification describes after an update by
`dt`: `k = floor((t + dt) / rate)` frames further, modulo the frame count,
with `t` reduced by `k * rate`. -/
def animation_after (animation : Component_Animation) (dt : ℚ) : Component_Animation :=
  { animation with
    t := animation.t + dt - elapsed_frames animation dt * animation.rate
    frame_index :=
      (animation.frame_index + elapsed_frames animation dt) % animation.frames.length }

/-- Non-degenerate Animation data: positive `rate`, at least one frame and a
`frame_index` inside `frames`. -/
def well_formed (animation : Component_Animation) : Prop :=
  0 < animation.rate ∧ animation.frames.length ≠ 0 ∧
    animation.frame_index < animation.frames.length

/-- The Animation invariant of the data model: `0 ≤ t < rate`. -/
def t_in_range (animation : Component_Animation) : Prop :=
  0 ≤ animation.t ∧ animation.t < animation.rate

/-- A four-frame sequence. -/
def sample_frames : List Texture2D :=
  [⟨0, 16, 16⟩, ⟨1, 16, 16⟩, ⟨2, 16, 16⟩, ⟨3, 16, 16⟩]

/-- A four-frame animation with rate 0.1 at its first frame. -/
def sample_animation : Component_Animation :=
  { frames := sample_frames, rate := 1 / 10, t := 0, frame_index := 0 }

/-- A sprite at depth `z`. -/
def sample_sprite (z : ℚ) : Component_Sprite :=
  { position := ⟨0, 0⟩, rotation := 0, scale := 1, z := z, tint := 0, texture := ⟨0, 16, 16⟩ }

/-- Three sprites at depths 1, -1 and 0; the first one is animated. -/
def sample_world : World :=
  { entities := [0, 1, 2]
    sprite := fun e => sample_sprite (if e = 0 then 1 else if e = 1 then -1 else 0)
    animation := fun e => if e = 0 then some sample_animation else none
    transform := fun _ => { position := ⟨0, 0⟩, rotation := 0, scale := 1 }
    render_entities := [] }

/-- An environment for examples: no rotation, 16 pixels per unit, the
identity for `rotated_scaled_AABB` and the overlap test of raylib. -/
def sample_env : Render_Env :=
  { cos := fun _ => 1
    sin := fun _ => 0
    pixels_to_unit := 1 / 16
    unit_to_pixels := 16
    rotated_scaled_AABB := fun r _ _ => r
    CheckCollisionRecs := fun a b =>
      decide (a.x < b.x + b.width ∧ a.x + a.width > b.x ∧
        a.y < b.y + b.height ∧ a.y + a.height > b.y) }

/-- Four sprites at depths 1, -1, 0 and -2 in sorted render order; the last
entity is far away from the origin. -/
def sample_render_world : World :=
  { entities := [0, 1, 2, 3]
    sprite := fun e =>
      sample_sprite (if e = 0 then 1 else if e = 1 then -1 else if e = 2 then 0 else -2)
    animation := fun _ => none
    transform := fun e =>
      { position := if e = 3 then ⟨100, 100⟩ else ⟨0, 0⟩, rotation := 0, scale := 1 }
    render_entities := [(-2, 3), (-1, 1), (0, 2), (1, 0)] }

/-- A camera box around the origin. -/
def sample_camera : Rectangle := ⟨-4, -4, 8, 8⟩

end System_Sprite_Render

/-! ## helpers.cpp -/

/-- The four bound updates of lines 16 to 26 for one point. -/
def expand_bounds (bounds : Vector2 × Vector2) (point : Vector2) : Vector2 × Vector2 :=
  let lower := bounds.1
  let upper := bounds.2
  let lower : Vector2 := if point.x < lower.x then { lower with x := point.x } else lower
  let lower : Vector2 := if point.y < lower.y then { lower with y := point.y } else lower
  let upper : Vector2 := if point.x > upper.x then { upper with x := point.x } else upper
  let upper : Vector2 := if point.y > upper.y then { upper with y := point.y } else upper
  (lower, upper)

/-- `rotatedAABB(rectangle, rotation)` of `helpers.cpp`; `cos` and `sin` are
the float functions `std::cos` and `std::sin`. -/
def rotatedAABB (cos sin : ℚ → ℚ) (rectangle : Rectangle) (rotation : ℚ) : Rectangle :=
  let half_size : Vector2 := ⟨rectangle.width * (1 / 2), rectangle.height * (1 / 2)⟩
  let center : Vector2 := ⟨rectangle.x + half_size.x, rectangle.y + half_size.y⟩
  let bounds : Vector2 × Vector2 :=
    ([-1, 1] : List ℚ).foldl (fun bounds x =>
      ([-1, 1] : List ℚ).foldl (fun bounds y =>
        let point : Vector2 :=
          ⟨center.x + cos rotation * half_size.x * x, sin rotation * half_size.y * y⟩
        expand_bounds bounds point) bounds) (center, center)
  let lower := bounds.1
  let upper := bounds.2
  ⟨lower.x, lower.y, upper.x - lower.x, upper.y - lower.y⟩

/-- The corner `(x, y)` (each `-1` or `1`) of a rectangle after a rotation
about the rectangle's centre, from the cosine and sine of the angle. -/
def rotated_corner (c s : ℚ) (rectangle : Rectangle) (x y : ℚ) : Vector2 :=
  let hx := rectangle.width / 2
  let hy := rectangle.height / 2
  ⟨rectangle.x + hx + (c * (hx * x) - s * (hy * y)),
    rectangle.y + hy + (s * (hx * x) + c * (hy * y))⟩

/-- The four rotated corners. -/
def rotated_corners (c s : ℚ) (rectangle : Rectangle) : List Vector2 :=
  [rotated_corner c s rectangle (-1) (-1), rotated_corner c s rectangle (-1) 1,
    rotated_corner c s rectangle 1 (-1), rotated_corner c s rectangle 1 1]

/-- A box contains a point. -/
def Rectangle.contains (r : Rectangle) (p : Vector2) : Prop :=
  r.x ≤ p.x ∧ p.x ≤ r.x + r.width ∧ r.y ≤ p.y ∧ p.y ≤ r.y + r.height

/-- The wording of the specification of `rotatedAABB`: the box contains the
four rotated corners and lies inside every box that contains them. -/
def is_minimal_rotated_box (c s : ℚ) (rectangle box : Rectangle) : Prop :=
  (∀ p ∈ rotated_corners c s rectangle, box.contains p) ∧
  ∀ other : Rectangle, (∀ p ∈ rotated_corners c s rectangle, other.contains p) →
    other.x ≤ box.x ∧ box.x + box.width ≤ other.x + other.width ∧
    other.y ≤ box.y ∧ box.y + box.height ≤ other.y + other.height

/-! ## Observing System_Agent -/

/-- One state-changing call on the tile map, with its arguments. -/
inductive Tilemap_Call where
  | set_no_collide (x y : ℚ)
  | update_no_collide (hull region : Rectangle)
  deriving DecidableEq, Repr

/-- A tile oracle whose tile-map state is the list of the state-changing
calls made so far, oldest first, and whose collision query answers
`answer box` for the query box `box`. -/
def recording_ops (answer : Rectangle → Vector2) : Tilemap_Ops (List Tilemap_Call) :=
  { get_collision_offset := fun _ box _ => answer box
    set_no_collide := fun t x y => t ++ [Tilemap_Call.set_no_collide x y]
    update_no_collide := fun t hull region => t ++ [Tilemap_Call.update_no_collide hull region] }

namespace System_Agent

/-- The blend factor of line 158. -/
def mix_x (on_ground : Bool) : ℚ := if on_ground then mix else mix * air_control

/-- Lines 160 to 163: the horizontal velocity after the blend and the snap. -/
def next_velocity_x (on_ground : Bool) (action : Int) (vx : ℚ) : ℚ :=
  let vx : ℚ := vx + mix_x on_ground * (max_speed * movement_x action - vx)
  if |vx| < mix_x on_ground * max_speed then 0 else vx

/-- Lines 165 to 175: the vertical velocity after the jump impulse, gravity
and the clamp. -/
def next_velocity_y (on_ground : Bool) (action : Int) (dt vy : ℚ) : ℚ :=
  let vy : ℚ := if jump action then -max_jump else vy
  let vy : ℚ := if !on_ground then vy - gravity * dt else vy
  if |vy| > max_jump then (if vy > 0 then 1 else -1) * max_jump else vy

/-- The tile map after lines 165 to 168: `set_no_collide` at the position
before the move when the action asks to fall through and does not jump. -/
def after_fallthrough {TM : Type} (ops : Tilemap_Ops TM) (w : World TM) : TM :=
  if jump w.agent.action then w.tilemap
  else if fallthrough w.agent.action then
    ops.set_no_collide w.tilemap w.transform.position.x w.transform.position.y
  else w.tilemap

/-- The world-space hull of line 151, at the position before the move. -/
def world_collision {TM : Type} (w : World TM) : Rectangle :=
  ⟨w.transform.position.x + w.collision.bounds.x, w.transform.position.y + w.collision.bounds.y,
    w.collision.bounds.width, w.collision.bounds.height⟩

/-- Every step of the run is entered with `on_ground = b`. -/
def enters_with_ground {TM : Type} (ops : Tilemap_Ops TM) (b : Bool) :
    World TM → List (Int × ℚ) → Prop
  | _, [] => True
  | w, input :: inputs =>
    w.agent.on_ground = b ∧ enters_with_ground ops b (step ops w input) inputs

/-- An agent at `(3, 10)` with the hull `(-0.5, -1, 1, 1)` and an empty call
record. -/
def sample_world (on_ground : Bool) (action : Int) (velocity : Vector2) :
    World (List Tilemap_Call) :=
  { agent := { action := action, on_ground := on_ground }
    transform := { position := ⟨3, 10⟩, rotation := 0, scale := 1 }
    dynamics := { velocity := velocity }
    collision := { bounds := ⟨-1 / 2, -1, 1, 1⟩ }
    tilemap := []
    camera_target := ⟨0, 0⟩ }

end System_Agent

namespace System_Mob_AI

/-- One patrol actor at the origin moving left with speed 1. -/
def sample_world_left : World :=
  { entities := [0]
    mob_ai := fun _ => { velocity_x := -1 }
    transform := fun _ => { position := ⟨0, 0⟩, rotation := 0, scale := 1 } }

end System_Mob_AI

end Coinrun

/-! ## Theorems: System_Agent -/

namespace Coinrun

namespace System_Agent

/-- C1 (refuted as written): the table row for action code 2 gives
`movement_x = +1`, but line 153 names only the codes 0 and 1, so the decoded
triple of code 2 is not `(+1, yes, no)`. -/
theorem decode_two_not_table_row : decode 2 ≠ (1, true, false) := by
  decide

/-- C1 (amended): the decoded triple `(movement_x, jump, fallthrough)` of each
of the nine action codes; code 2 decodes to `(0, yes, no)`, the other eight
rows are those of the table. -/
theorem decode_table :
    decode 0 = (1, false, true) ∧ decode 1 = (1, false, false) ∧
    decode 2 = (0, true, false) ∧ decode 3 = (0, false, true) ∧
    decode 4 = (0, false, false) ∧ decode 5 = (0, true, false) ∧
    decode 6 = (-1, false, true) ∧ decode 7 = (-1, false, false) ∧
    decode 8 = (0, true, false) := by
  decide

/-- The clamp of lines 174 and 175 bounds the magnitude by `max_jump`. -/
theorem clamp_abs_le (vy : ℚ) :
    |(if |vy| > max_jump then (if vy > 0 then 1 else -1) * max_jump else vy)| ≤ max_jump := by
  have hm : (0 : ℚ) ≤ max_jump := by norm_num [max_jump]
  by_cases h : |vy| > max_jump
  · rw [if_pos h]
    by_cases hp : vy > 0
    · rw [if_pos hp, one_mul, abs_of_nonneg hm]
    · rw [if_neg hp, neg_one_mul, abs_neg, abs_of_nonneg hm]
  · rw [if_neg h]
    exact not_lt.mp h

/-- One update leaves the vertical speed within `max_jump`. -/
theorem update_velocity_y_abs_le {TM : Type} (ops : Tilemap_Ops TM) (dt : ℚ) (w : World TM) :
    |(update ops dt w).dynamics.velocity.y| ≤ max_jump := by
  simp only [update]
  exact clamp_abs_le _

/-- C2: after one `update`, from any state, action, `dt` and tile oracle, the
vertical velocity has magnitude at most `max_jump = 1.5`; and so it has after
the last step of every non-empty sequence of controlled updates. -/
theorem jump_clamp {TM : Type} (ops : Tilemap_Ops TM) (w : World TM) :
    max_jump = 3 / 2 ∧
    (∀ dt : ℚ, |(update ops dt w).dynamics.velocity.y| ≤ 3 / 2) ∧
    (∀ (inputs : List (Int × ℚ)) (input : Int × ℚ),
      |(run ops w (inputs ++ [input])).dynamics.velocity.y| ≤ 3 / 2) := by
  have hm : max_jump = 3 / 2 := rfl
  refine ⟨hm, ?_, ?_⟩
  · intro dt
    rw [← hm]
    exact update_velocity_y_abs_le ops dt w
  · intro inputs input
    rw [← hm, run, List.foldl_append]
    exact update_velocity_y_abs_le ops input.2 _

/-- C3: after `update` the flag `on_ground` is true exactly when the vertical
component of the correction returned by the call's tile-oracle query (made on
the tile map the call leaves, with the box and classifier of line 184) is
non-negative, and false exactly when it is negative. -/
theorem ground_flag {TM : Type} (ops : Tilemap_Ops TM) (dt : ℚ) (w : World TM) :
    ((update ops dt w).agent.on_ground = true ↔
      (ops.get_collision_offset (update ops dt w).tilemap w.collision.bounds classify).y ≥ 0) ∧
    ((update ops dt w).agent.on_ground = false ↔
      (ops.get_collision_offset (update ops dt w).tilemap w.collision.bounds classify).y < 0) := by
  simp [update]

end System_Agent

end Coinrun

/-! ## Theorems: System_Sprite_Render, animation -/

namespace Coinrun

namespace System_Sprite_Render

/-- The loop runs exactly `k` times when `t` lies in the `k`-th multiple of
`rate`, whatever fuel beyond `k` is supplied. -/
theorem advance_frames_eq (k : Nat) : ∀ (animation : Component_Animation) (fuel : Nat),
    0 < animation.rate → animation.frames.length ≠ 0 →
    animation.frame_index < animation.frames.length →
    animation.t < (k + 1) * animation.rate → (k = 0 ∨ k * animation.rate ≤ animation.t) →
    k ≤ fuel → advance_frames fuel animation = some (advanced animation k) := by
  induction k with
  | zero =>
    intro animation fuel _ _ hidx hlt _ _
    have hlt' : ¬ animation.t ≥ animation.rate := by
      simpa using hlt
    have hres : advanced animation 0 = animation := by
      cases animation
      simp_all [advanced, Nat.mod_eq_of_lt]
    cases fuel <;> simp [advance_frames, hlt', hres]
  | succ k ih =>
    intro animation fuel hrate hn hidx hlt hge hfuel
    obtain ⟨fuel, rfl⟩ : ∃ f, fuel = f + 1 := ⟨fuel - 1, by omega⟩
    have hge' : ((k : ℚ) + 1) * animation.rate ≤ animation.t := by
      rcases hge with h | h
      · exact absurd h (Nat.succ_ne_zero k)
      · simpa using h
    have hk : (0 : ℚ) ≤ (k : ℚ) * animation.rate :=
      mul_nonneg (Nat.cast_nonneg k) hrate.le
    have hcond : animation.t ≥ animation.rate := by
      have : ((k : ℚ) + 1) * animation.rate = (k : ℚ) * animation.rate + animation.rate := by ring
      linarith
    have hnpos : 0 < animation.frames.length := Nat.pos_of_ne_zero hn
    rw [advance_frames, if_pos hcond, if_neg hn]
    have hlt2 : animation.t - animation.rate < ((k : ℚ) + 1) * animation.rate := by
      have h2 : animation.t < (((k + 1 : Nat) : ℚ) + 1) * animation.rate := hlt
      push_cast at h2
      linarith
    have hge2 : (k : ℚ) * animation.rate ≤ animation.t - animation.rate := by
      linarith
    rw [ih ⟨animation.frames, animation.rate, animation.t - animation.rate,
      (animation.frame_index + 1) % animation.frames.length⟩ fuel hrate hn
      (Nat.mod_lt _ hnpos) hlt2 (Or.inr hge2) (by omega)]
    congr 1
    simp only [advanced, Nat.cast_add, Nat.cast_one]
    congr 1
    · ring
    · rw [Nat.mod_add_mod]
      congr 1
      omega

/-- More fuel does not change a result of the loop. -/
theorem advance_frames_mono : ∀ (fuel : Nat) (animation r : Component_Animation),
    advance_frames fuel animation = some r →
    ∀ fuel1, fuel ≤ fuel1 → advance_frames fuel1 animation = some r := by
  intro fuel
  induction fuel with
  | zero =>
    intro animation r h fuel1 _
    by_cases hc : animation.t ≥ animation.rate
    · simp [advance_frames, hc] at h
    · simp only [advance_frames, hc, if_false] at h
      cases fuel1 <;> simp [advance_frames, hc, h]
  | succ fuel ih =>
    intro animation r h fuel1 hle
    by_cases hc : animation.t ≥ animation.rate
    · obtain ⟨fuel1, rfl⟩ : ∃ f, fuel1 = f + 1 := ⟨fuel1 - 1, by omega⟩
      by_cases hn : animation.frames.length = 0
      · simp [advance_frames, hc, hn] at h
      · simp only [advance_frames, hc, hn, if_true, if_false] at h ⊢
        exact ih _ r h fuel1 (by omega)
    · simp only [advance_frames, hc, if_false] at h
      cases fuel1 <;> simp [advance_frames, hc, h]

/-- More fuel does not change a result of the animation step. -/
theorem animate_mono {fuel fuel1 : Nat} {dt : ℚ} {animation : Component_Animation}
    {r : Component_Animation × Texture2D} (h : animate fuel dt animation = some r)
    (hle : fuel ≤ fuel1) : animate fuel1 dt animation = some r := by
  unfold animate at h ⊢
  cases hadv : advance_frames fuel { animation with t := animation.t + dt } with
  | none => simp [hadv] at h
  | some a1 =>
    rw [advance_frames_mono fuel _ a1 hadv fuel1 hle]
    simpa [hadv] using h

/-- With non-degenerate data the animation step of one entity returns, for
every fuel from `elapsed_frames` on, the component `animation_after` and the
frame at its index. -/
theorem animate_eq (animation : Component_Animation) (dt : ℚ) (hwf : well_formed animation)
    (fuel : Nat) (hfuel : elapsed_frames animation dt ≤ fuel) :
    ∃ texture, (animation_after animation dt).frames[(animation_after animation dt).frame_index]?
        = some texture ∧
      animate fuel dt animation = some (animation_after animation dt, texture) := by
  obtain ⟨hrate, hn, hidx⟩ := hwf
  have hnpos : 0 < animation.frames.length := Nat.pos_of_ne_zero hn
  have hlt : animation.t + dt < ((elapsed_frames animation dt : ℚ) + 1) * animation.rate := by
    have h := Nat.lt_floor_add_one ((animation.t + dt) / animation.rate)
    rw [div_lt_iff₀ hrate] at h
    exact h
  have hge : elapsed_frames animation dt = 0 ∨
      (elapsed_frames animation dt : ℚ) * animation.rate ≤ animation.t + dt := by
    by_cases h0 : 0 ≤ (animation.t + dt) / animation.rate
    · right
      have h := Nat.floor_le h0
      rw [le_div_iff₀ hrate] at h
      exact h
    · left
      exact Nat.floor_of_nonpos (le_of_lt (not_le.mp h0))
  have hloop := advance_frames_eq (elapsed_frames animation dt)
    { animation with t := animation.t + dt } fuel hrate hn hidx hlt hge hfuel
  have hadv : advanced { animation with t := animation.t + dt } (elapsed_frames animation dt)
      = animation_after animation dt := rfl
  rw [hadv] at hloop
  have hidx' : (animation_after animation dt).frame_index
      < (animation_after animation dt).frames.length := Nat.mod_lt _ hnpos
  refine ⟨(animation_after animation dt).frames[(animation_after animation dt).frame_index], ?_, ?_⟩
  · exact List.getElem?_eq_getElem hidx'
  · simp only [animate, hloop, List.getElem?_eq_getElem hidx']

/-! ### The update loop -/

/-- What one pass of the loop body does to the world, when it returns. -/
theorem update_entity_spec {fuel : Nat} {dt : ℚ} {w w1 : World} {index : Nat} {e : Entity}
    (h : update_entity fuel dt w index e = some w1) :
    w1.entities = w.entities ∧ w1.transform = w.transform ∧
    (∀ e1, (w1.sprite e1).z = (w.sprite e1).z) ∧
    w1.render_entities = w.render_entities.set index ((w.sprite e).z, e) ∧
    (∀ e1, e1 ≠ e → w1.animation e1 = w.animation e1 ∧ w1.sprite e1 = w.sprite e1) ∧
    (∀ a, w.animation e = some a → ∃ a1 texture, animate fuel dt a = some (a1, texture) ∧
      w1.animation e = some a1 ∧ w1.sprite e = { w.sprite e with texture := texture }) ∧
    (∀ e1, w.animation e1 = none → w1.animation e1 = none) := by
  unfold update_entity at h
  cases ha : w.animation e with
  | none =>
    simp only [ha] at h
    cases h
    simp
  | some a =>
    simp only [ha] at h
    cases hanim : animate fuel dt a with
    | none => simp [hanim] at h
    | some r =>
      obtain ⟨a1, texture⟩ := r
      simp only [hanim] at h
      cases h
      refine ⟨rfl, rfl, ?_, rfl, ?_, ?_, ?_⟩
      · intro e1
        by_cases he : e1 = e
        · subst he
          simp
        · simp [Function.update_noteq he]
      · intro e1 he
        simp [Function.update_noteq he]
      · intro a0 ha0
        cases ha0
        exact ⟨a1, texture, hanim, by simp, by simp⟩
      · intro e1 he1
        have hne : e1 ≠ e := fun hc => by rw [hc, ha] at he1; cases he1
        simp [Function.update_noteq hne, he1]

/-- The loop body returns when the entity has no Animation component or its
animation step returns. -/
theorem update_entity_isSome {fuel : Nat} {dt : ℚ} {w : World} {index : Nat} {e : Entity}
    (h : ∀ a, w.animation e = some a → (animate fuel dt a).isSome) :
    (update_entity fuel dt w index e).isSome := by
  unfold update_entity
  cases ha : w.animation e with
  | none => simp
  | some a =>
    have h1 := h a ha
    obtain ⟨r, hr⟩ := Option.isSome_iff_exists.mp h1
    obtain ⟨a1, texture⟩ := r
    simp [hr]

/-- The loop over `es` from `index`, when it returns: entities and transforms
are kept, no depth key changes, the buffer slots `index ..` hold the pairs of
`es` in order, entities outside `es` are untouched, and each animated entity
of a duplicate-free `es` went through one animation step. -/
theorem update_loop_spec {fuel : Nat} {dt : ℚ} : ∀ (es : List Entity) (index : Nat)
    (w w1 : World), update_loop fuel dt es index w = some w1 →
    w1.entities = w.entities ∧ w1.transform = w.transform ∧
    (∀ e1, (w1.sprite e1).z = (w.sprite e1).z) ∧
    (∀ pre mid, w.render_entities = pre ++ mid → pre.length = index →
      mid.length = es.length →
      w1.render_entities = pre ++ es.map (fun e => ((w.sprite e).z, e))) ∧
    (∀ e1, e1 ∉ es → w1.animation e1 = w.animation e1 ∧ w1.sprite e1 = w.sprite e1) ∧
    (es.Nodup → ∀ e ∈ es, ∀ a, w.animation e = some a →
      ∃ a1 texture, animate fuel dt a = some (a1, texture) ∧
        w1.animation e = some a1 ∧ w1.sprite e = { w.sprite e with texture := texture }) ∧
    (∀ e1, w.animation e1 = none → w1.animation e1 = none) := by
  intro es
  induction es with
  | nil =>
    intro index w w1 h
    simp only [update_loop, Option.some.injEq] at h
    subst h
    refine ⟨rfl, rfl, fun _ => rfl, ?_, fun _ _ => ⟨rfl, rfl⟩, ?_, fun _ h => h⟩
    · intro pre mid hR _ hmid
      have : mid = [] := List.length_eq_zero.mp (by simpa using hmid)
      simp [hR, this]
    · intro _ e he
      simp at he
  | cons e es ih =>
    intro index w w1 h
    rw [update_loop] at h
    cases hbody : update_entity fuel dt w index e with
    | none => simp [hbody] at h
    | some w0 =>
      simp only [hbody] at h
      obtain ⟨hE0, hT0, hZ0, hR0, hO0, hA0, hN0⟩ := update_entity_spec hbody
      obtain ⟨hE1, hT1, hZ1, hR1, hO1, hA1, hN1⟩ := ih (index + 1) w0 w1 h
      refine ⟨hE1.trans hE0, hT1.trans hT0, fun e1 => (hZ1 e1).trans (hZ0 e1), ?_, ?_, ?_,
        fun e1 h1 => hN1 e1 (hN0 e1 h1)⟩
      · intro pre mid hR hpre hmid
        cases mid with
        | nil => simp at hmid
        | cons m mid =>
          have hset : w0.render_entities = (pre ++ [((w.sprite e).z, e)]) ++ mid := by
            rw [hR0, hR, ← hpre]
            simp
          have := hR1 (pre ++ [((w.sprite e).z, e)]) mid hset (by simp [hpre])
            (by simpa using hmid)
          rw [this]
          simp [hZ0]
      · intro e1 he1
        have hne : e1 ≠ e := fun hc => he1 (hc ▸ List.mem_cons_self _ _)
        have hnm : e1 ∉ es := fun hc => he1 (List.mem_cons_of_mem _ hc)
        exact ⟨(hO1 e1 hnm).1.trans (hO0 e1 hne).1, (hO1 e1 hnm).2.trans (hO0 e1 hne).2⟩
      · intro hnd e1 he1 a ha
        have hnd' := List.nodup_cons.mp hnd
        rcases List.mem_cons.mp he1 with rfl | hmem
        · obtain ⟨a1, texture, h1, h2, h3⟩ := hA0 a ha
          exact ⟨a1, texture, h1, (hO1 e1 hnd'.1).1.trans h2, (hO1 e1 hnd'.1).2.trans h3⟩
        · have hne : e1 ≠ e := fun hc => hnd'.1 (hc ▸ hmem)
          have ha0 : w0.animation e1 = some a := (hO0 e1 hne).1.trans ha
          obtain ⟨a1, texture, h1, h2, h3⟩ := hA1 hnd'.2 e1 hmem a ha0
          exact ⟨a1, texture, h1, h2, by rw [h3, (hO0 e1 hne).2]⟩

/-- The loop over a duplicate-free `es` returns when the animation step of
every animated entity of `es` returns. -/
theorem update_loop_isSome {fuel : Nat} {dt : ℚ} : ∀ (es : List Entity) (index : Nat)
    (w : World), es.Nodup →
    (∀ e ∈ es, ∀ a, w.animation e = some a → (animate fuel dt a).isSome) →
    (update_loop fuel dt es index w).isSome := by
  intro es
  induction es with
  | nil => intro index w _ _; simp [update_loop]
  | cons e es ih =>
    intro index w hnd h
    have hnd' := List.nodup_cons.mp hnd
    rw [update_loop]
    have hb : (update_entity fuel dt w index e).isSome :=
      update_entity_isSome (fun a ha => h e (List.mem_cons_self _ _) a ha)
    obtain ⟨w0, hw0⟩ := Option.isSome_iff_exists.mp hb
    simp only [hw0]
    obtain ⟨_, _, _, _, hO0, _, _⟩ := update_entity_spec hw0
    apply ih (index + 1) w0 hnd'.2
    intro e1 he1 a ha
    have hne : e1 ≠ e := fun hc => hnd'.1 (hc ▸ he1)
    exact h e1 (List.mem_cons_of_mem _ he1) a ((hO0 e1 hne).1.symm.trans ha)

/-! ### The sort -/

theorem sort_insert_perm {α : Type} (comp : α → α → Bool) (a : α) :
    ∀ l : List α, (sort_insert comp a l).Perm (a :: l) := by
  intro l
  induction l with
  | nil => exact List.Perm.refl _
  | cons b l ih =>
    by_cases hc : comp a b = true
    · simp [sort_insert, hc]
    · simp only [sort_insert, hc]
      exact (ih.cons b).trans (List.Perm.swap a b l)

theorem std_sort_perm {α : Type} (comp : α → α → Bool) :
    ∀ l : List α, (std_sort comp l).Perm l := by
  intro l
  induction l with
  | nil => exact List.Perm.refl _
  | cons a l ih => exact (sort_insert_perm comp a _).trans (ih.cons a)

theorem sort_insert_sorted (a : ℚ × Entity) : ∀ l : List (ℚ × Entity),
    l.Pairwise (fun p q => p.1 ≤ q.1) →
    (sort_insert z_less a l).Pairwise (fun p q => p.1 ≤ q.1) := by
  intro l
  induction l with
  | nil => intro _; simp [sort_insert]
  | cons b l ih =>
    intro h
    obtain ⟨hb, hl⟩ := List.pairwise_cons.mp h
    by_cases hc : a.1 < b.1
    · have : z_less a b = true := by simp [z_less, hc]
      simp only [sort_insert, this, if_true]
      refine List.pairwise_cons.mpr ⟨?_, h⟩
      intro x hx
      rcases List.mem_cons.mp hx with rfl | hx
      · exact hc.le
      · exact hc.le.trans (hb x hx)
    · have : z_less a b = false := by simp [z_less, hc]
      simp only [sort_insert, this]
      refine List.pairwise_cons.mpr ⟨?_, ih hl⟩
      intro x hx
      have hx' : x ∈ a :: l := (sort_insert_perm z_less a l).mem_iff.mp hx
      rcases List.mem_cons.mp hx' with rfl | hx'
      · exact not_lt.mp hc
      · exact hb x hx'

theorem std_sort_sorted : ∀ l : List (ℚ × Entity),
    (std_sort z_less l).Pairwise (fun p q => p.1 ≤ q.1) := by
  intro l
  induction l with
  | nil => simp [std_sort]
  | cons a l ih => exact sort_insert_sorted a _ ih

/-! ### The whole update -/

theorem resize_length {α : Type} (l : List α) (n : Nat) (d : α) :
    (resize l n d).length = n := by
  simp only [resize, List.length_append, List.length_take, List.length_replicate]
  omega

/-- The buffer handed to the loop has one slot per entity. -/
theorem buffer_length (w : World) :
    (if w.render_entities.length ≠ w.entities.length then
      resize w.render_entities w.entities.length (0, 0)
    else w.render_entities).length = w.entities.length := by
  by_cases h : w.render_entities.length = w.entities.length
  · simp [h]
  · simp [h, resize_length]

/-- An update that returns is the loop over the entity set followed by the
sort of the buffer. -/
theorem update_eq_some {fuel : Nat} {dt : ℚ} {w w1 : World} (h : update fuel dt w = some w1) :
    ∃ w0, update_loop fuel dt w.entities 0
        { w with render_entities :=
          if w.render_entities.length ≠ w.entities.length then
            resize w.render_entities w.entities.length (0, 0)
          else w.render_entities } = some w0 ∧
      w1 = { w0 with render_entities := std_sort z_less w0.render_entities } := by
  simp only [update] at h
  split at h
  · cases h
  · next w0 hw0 =>
    cases h
    exact ⟨w0, hw0, rfl⟩

/-- What an update that returns leaves. -/
theorem update_spec {fuel : Nat} {dt : ℚ} {w w1 : World} (h : update fuel dt w = some w1) :
    w1.entities = w.entities ∧ w1.transform = w.transform ∧
    (∀ e1, (w1.sprite e1).z = (w.sprite e1).z) ∧
    w1.render_entities = std_sort z_less (w.entities.map (fun e => ((w.sprite e).z, e))) ∧
    (∀ e1, e1 ∉ w.entities → w1.animation e1 = w.animation e1 ∧ w1.sprite e1 = w.sprite e1) ∧
    (w.entities.Nodup → ∀ e ∈ w.entities, ∀ a, w.animation e = some a →
      ∃ a1 texture, animate fuel dt a = some (a1, texture) ∧
        w1.animation e = some a1 ∧ w1.sprite e = { w.sprite e with texture := texture }) ∧
    (∀ e1, w.animation e1 = none → w1.animation e1 = none) := by
  obtain ⟨w0, hloop, rfl⟩ := update_eq_some h
  obtain ⟨hE, hT, hZ, hR, hO, hA, hN⟩ := update_loop_spec _ _ _ _ hloop
  refine ⟨hE, hT, hZ, ?_, hO, hA, hN⟩
  have := hR [] _ rfl rfl (buffer_length w)
  simp only [this, List.nil_append]

/-- An update of a duplicate-free entity set returns when every animation
step returns. -/
theorem update_isSome {fuel : Nat} {dt : ℚ} {w : World} (hnd : w.entities.Nodup)
    (h : ∀ e ∈ w.entities, ∀ a, w.animation e = some a → (animate fuel dt a).isSome) :
    (update fuel dt w).isSome := by
  have hl := @update_loop_isSome fuel dt w.entities 0
    { w with render_entities :=
      if w.render_entities.length ≠ w.entities.length then
        resize w.render_entities w.entities.length (0, 0)
      else w.render_entities } hnd h
  obtain ⟨w0, hw0⟩ := Option.isSome_iff_exists.mp hl
  simp only [update, hw0, Option.isSome_some]

/-- Some amount of fuel covers the frames elapsed for every animated entity
of a list. -/
theorem exists_fuel (w : World) (dt : ℚ) : ∀ es : List Entity,
    ∃ fuel0 : Nat, ∀ e ∈ es, ∀ a, w.animation e = some a → elapsed_frames a dt ≤ fuel0 := by
  intro es
  induction es with
  | nil => exact ⟨0, by simp⟩
  | cons e es ih =>
    obtain ⟨f, hf⟩ := ih
    cases ha : w.animation e with
    | none =>
      refine ⟨f, ?_⟩
      intro e1 he1 a ha1
      rcases List.mem_cons.mp he1 with rfl | hm
      · rw [ha] at ha1; cases ha1
      · exact hf e1 hm a ha1
    | some a0 =>
      refine ⟨max f (elapsed_frames a0 dt), ?_⟩
      intro e1 he1 a ha1
      rcases List.mem_cons.mp he1 with rfl | hm
      · rw [ha] at ha1; cases ha1
        exact le_max_right _ _
      · exact (hf e1 hm a ha1).trans (le_max_left _ _)

/-- With non-degenerate Animation data on a duplicate-free entity set the
update returns for every large enough fuel. -/
theorem update_returns (w : World) (dt : ℚ) (hnd : w.entities.Nodup)
    (hwf : ∀ e ∈ w.entities, ∀ a, w.animation e = some a → well_formed a) :
    ∃ fuel0 : Nat, ∀ fuel, fuel0 ≤ fuel → (update fuel dt w).isSome := by
  obtain ⟨fuel0, hf⟩ := exists_fuel w dt w.entities
  refine ⟨fuel0, fun fuel hfuel => update_isSome hnd ?_⟩
  intro e he a ha
  obtain ⟨texture, _, hanim⟩ := animate_eq a dt (hwf e he a ha) fuel ((hf e he a ha).trans hfuel)
  simp [hanim]

/-! ### Animation: the claims -/

/-- After the step, `t` is back in `[0, rate)` and the data is still
non-degenerate, provided `t + dt` is not negative. -/
theorem animation_after_ok (animation : Component_Animation) (dt : ℚ)
    (hwf : well_formed animation) (h0 : 0 ≤ animation.t + dt) :
    well_formed (animation_after animation dt) ∧ t_in_range (animation_after animation dt) := by
  obtain ⟨hrate, hn, hidx⟩ := hwf
  have hq : 0 ≤ (animation.t + dt) / animation.rate := div_nonneg h0 hrate.le
  have hlo := Nat.floor_le hq
  rw [le_div_iff₀ hrate] at hlo
  have hhi := Nat.lt_floor_add_one ((animation.t + dt) / animation.rate)
  rw [div_lt_iff₀ hrate] at hhi
  refine ⟨⟨hrate, hn, Nat.mod_lt _ (Nat.pos_of_ne_zero hn)⟩, ?_, ?_⟩
  · show 0 ≤ animation.t + dt - (elapsed_frames animation dt : ℚ) * animation.rate
    have : (elapsed_frames animation dt : ℚ) * animation.rate ≤ animation.t + dt := hlo
    linarith
  · show animation.t + dt - (elapsed_frames animation dt : ℚ) * animation.rate < animation.rate
    have : animation.t + dt < ((elapsed_frames animation dt : ℚ) + 1) * animation.rate := hhi
    linarith

theorem sample_elapsed : elapsed_frames sample_animation (7 / 20) = 3 := by
  unfold elapsed_frames
  rw [Nat.floor_eq_iff (by norm_num [sample_animation])]
  norm_num [sample_animation]

theorem sample_after :
    animation_after sample_animation (7 / 20)
      = { frames := sample_frames, rate := 1 / 10, t := 1 / 20, frame_index := 3 } := by
  simp only [animation_after, sample_elapsed]
  norm_num [sample_animation, sample_frames]

/-- C4: for an animated entity with at least one frame, `rate > 0`,
`0 ≤ t < rate`, a valid `frame_index` and `dt ≥ 0`, write
`k = floor((t + dt) / rate)` (`elapsed_frames`).  The frame-advance loop
terminates for every fuel from `k` on and leaves `frame_index` advanced by `k`
modulo the frame count and `t + dt - k * rate` (`animation_after`); the loop
body of the entity stores that component and sets the sprite's texture to
`frames[new frame_index]`; and so does every update of a duplicate-free
entity set that returns. -/
theorem animation_wraparound (animation : Component_Animation) (dt : ℚ)
    (hwf : well_formed animation) (ht : t_in_range animation) (hdt : 0 ≤ dt) :
    ((elapsed_frames animation dt : ℤ) = ⌊(animation.t + dt) / animation.rate⌋) ∧
    (animation_after animation dt).frame_index
      = (animation.frame_index + elapsed_frames animation dt) % animation.frames.length ∧
    (animation_after animation dt).t
      = animation.t + dt - elapsed_frames animation dt * animation.rate ∧
    (∀ fuel, elapsed_frames animation dt ≤ fuel →
      advance_frames fuel { animation with t := animation.t + dt }
        = some (animation_after animation dt)) ∧
    (∀ (w : World) (index : Nat) (e : Entity) (fuel : Nat),
      w.animation e = some animation → elapsed_frames animation dt ≤ fuel →
      ∃ w1, update_entity fuel dt w index e = some w1 ∧
        w1.animation e = some (animation_after animation dt) ∧
        animation.frames[(animation_after animation dt).frame_index]?
          = some (w1.sprite e).texture) ∧
    (∀ (w w1 : World) (e : Entity) (fuel : Nat), w.entities.Nodup → e ∈ w.entities →
      w.animation e = some animation → update fuel dt w = some w1 →
      w1.animation e = some (animation_after animation dt) ∧
        animation.frames[(animation_after animation dt).frame_index]?
          = some (w1.sprite e).texture) := by
  have hq : 0 ≤ (animation.t + dt) / animation.rate :=
    div_nonneg (add_nonneg ht.1 hdt) hwf.1.le
  refine ⟨Int.natCast_floor_eq_floor hq, rfl, rfl, ?_, ?_, ?_⟩
  · intro fuel hfuel
    obtain ⟨texture, _, hanim⟩ := animate_eq animation dt hwf fuel hfuel
    unfold animate at hanim
    split at hanim
    · cases hanim
    · next a1 ha1 =>
      split at hanim
      · cases hanim
      · cases hanim
        exact ha1
  · intro w index e fuel ha hfuel
    obtain ⟨texture, htex, hanim⟩ := animate_eq animation dt hwf fuel hfuel
    have hsome : (update_entity fuel dt w index e).isSome :=
      update_entity_isSome (fun a ha1 => by
        rw [ha] at ha1
        cases ha1
        simp [hanim])
    obtain ⟨w1, hw1⟩ := Option.isSome_iff_exists.mp hsome
    obtain ⟨_, _, _, _, _, hA, _⟩ := update_entity_spec hw1
    obtain ⟨a1, texture1, h1, h2, h3⟩ := hA animation ha
    rw [hanim] at h1
    cases h1
    exact ⟨w1, hw1, h2, by rw [h3]; exact htex⟩
  · intro w w1 e fuel hnd he ha hupd
    obtain ⟨_, _, _, _, _, hA, _⟩ := update_spec hupd
    obtain ⟨a1, texture1, h1, h2, h3⟩ := hA hnd e he animation ha
    obtain ⟨texture, htex, hanim⟩ := animate_eq animation dt hwf
      (max fuel (elapsed_frames animation dt)) (le_max_right _ _)
    rw [animate_mono h1 (le_max_left _ _)] at hanim
    cases hanim
    exact ⟨h2, by rw [h3]; exact htex⟩

theorem sample_well_formed : well_formed sample_animation := by
  norm_num [well_formed, sample_animation, sample_frames]

theorem sample_t_in_range : t_in_range sample_animation := by
  norm_num [t_in_range, sample_animation]

/-- The instance of the specification: four frames, rate 0.1, `t = 0` and
`dt = 0.35` give `k = 3`, frame index 3 and `t = 0.05` in one step. -/
theorem animation_wraparound_witness :
    (well_formed sample_animation ∧ t_in_range sample_animation ∧ (0 : ℚ) ≤ 7 / 20) ∧
    elapsed_frames sample_animation (7 / 20) = 3 ∧
    advance_frames 3 { sample_animation with t := sample_animation.t + 7 / 20 }
      = some { frames := sample_frames, rate := 1 / 10, t := 1 / 20, frame_index := 3 } ∧
    ∃ w1, update_entity 3 (7 / 20) sample_world 0 0 = some w1 ∧
      w1.animation 0
        = some { frames := sample_frames, rate := 1 / 10, t := 1 / 20, frame_index := 3 } ∧
      (w1.sprite 0).texture = ⟨3, 16, 16⟩ := by
  have hdt : (0 : ℚ) ≤ 7 / 20 := by norm_num
  obtain ⟨_, _, _, hloop, hbody, _⟩ :=
    animation_wraparound sample_animation (7 / 20) sample_well_formed sample_t_in_range hdt
  rw [sample_after, sample_elapsed] at hloop
  rw [sample_after, sample_elapsed] at hbody
  refine ⟨⟨sample_well_formed, sample_t_in_range, hdt⟩, sample_elapsed, hloop 3 le_rfl, ?_⟩
  obtain ⟨w1, h1, h2, h3⟩ := hbody sample_world 0 0 3 (by simp [sample_world]) le_rfl
  refine ⟨w1, h1, h2, ?_⟩
  simp [sample_animation, sample_frames] at h3
  exact h3.symm

/-- Outside the time steps of a frame loop: for a negative `dt` with
`t + dt < 0` the loop does not run and `t` is left negative; here `t = 0`,
`rate = 0.1` and `dt = -0.05`. -/
theorem negative_dt_breaks_t_range :
    well_formed sample_animation ∧ t_in_range sample_animation ∧
    sample_world.animation 0 = some sample_animation ∧ 0 ∈ sample_world.entities ∧
    ∃ w1 a1, update 0 (-1 / 20) sample_world = some w1 ∧ w1.animation 0 = some a1 ∧
      a1.t = -1 / 20 ∧ ¬ t_in_range a1 := by
  have hanim : animate 0 (-1 / 20) sample_animation
      = some ({ frames := sample_frames, rate := 1 / 10, t := -1 / 20, frame_index := 0 },
          ⟨0, 16, 16⟩) := by
    norm_num [animate, advance_frames, sample_animation, sample_frames]
  have hnd : sample_world.entities.Nodup := by simp [sample_world]
  have h0 : sample_world.animation 0 = some sample_animation := by simp [sample_world]
  have hsome : (update 0 (-1 / 20) sample_world).isSome := by
    apply update_isSome hnd
    intro e _ a ha
    by_cases he : e = 0
    · subst he
      rw [h0] at ha
      cases ha
      simp [hanim]
    · simp [sample_world, he] at ha
  obtain ⟨w1, hw1⟩ := Option.isSome_iff_exists.mp hsome
  obtain ⟨_, _, _, _, _, hA, _⟩ := update_spec hw1
  obtain ⟨a1, texture, h1, h2, _⟩ := hA hnd 0 (by simp [sample_world]) sample_animation h0
  rw [hanim] at h1
  cases h1
  refine ⟨sample_well_formed, sample_t_in_range, h0, by simp [sample_world], w1, _, hw1, h2,
    rfl, ?_⟩
  norm_num [t_in_range]

/-- An update that returns keeps the Animation invariant of an animated
entity with non-degenerate data whenever `t + dt` is not negative, which
includes every `dt ≥ 0` from `0 ≤ t` and the negative `dt` down to `-t`. -/
theorem update_keeps_invariant {fuel : Nat} {dt : ℚ} {w w1 : World} {e : Entity}
    {a : Component_Animation} (hnd : w.entities.Nodup) (he : e ∈ w.entities)
    (ha : w.animation e = some a) (hwf : well_formed a) (h0 : 0 ≤ a.t + dt)
    (hupd : update fuel dt w = some w1) :
    ∃ a1, w1.animation e = some a1 ∧ (0 ≤ a1.t ∧ a1.t < a1.rate) ∧
      a1.frame_index < a1.frames.length ∧ a1.frames = a.frames ∧ a1.rate = a.rate := by
  obtain ⟨_, _, _, _, _, hA, _⟩ := update_spec hupd
  obtain ⟨a1, texture1, h1, h2, _⟩ := hA hnd e he a ha
  obtain ⟨texture, _, hanim⟩ := animate_eq a dt hwf
    (max fuel (elapsed_frames a dt)) (le_max_right _ _)
  rw [animate_mono h1 (le_max_left _ _)] at hanim
  cases hanim
  obtain ⟨hwf1, ht1⟩ := animation_after_ok a dt hwf h0
  exact ⟨_, h2, ht1, hwf1.2.2, rfl, rfl⟩

/-- C5: for an update by a time step `dt ≥ 0` (the wall-clock delta time of
the data model) every update that returns leaves `0 ≤ t < rate` and
`frame_index` inside `frames` for each animated entity of the
(duplicate-free) entity set that had non-empty frames, `rate > 0`,
`0 ≤ t < rate` and a valid `frame_index` before; and when all animated
entities are such, the update returns for every large enough fuel and the
invariant holds for all of them afterwards. -/
theorem animation_invariant_preserved (w : World) (dt : ℚ) (hdt : 0 ≤ dt)
    (hnd : w.entities.Nodup) :
    (∀ (fuel : Nat) (w1 : World) (e : Entity) (a : Component_Animation),
      e ∈ w.entities → w.animation e = some a → well_formed a → t_in_range a →
      update fuel dt w = some w1 →
      ∃ a1, w1.animation e = some a1 ∧ (0 ≤ a1.t ∧ a1.t < a1.rate) ∧
        a1.frame_index < a1.frames.length ∧ a1.frames = a.frames ∧ a1.rate = a.rate) ∧
    ((∀ e ∈ w.entities, ∀ a, w.animation e = some a → well_formed a ∧ t_in_range a) →
      ∃ fuel0 : Nat, ∀ fuel, fuel0 ≤ fuel → ∃ w1, update fuel dt w = some w1 ∧
        w1.entities = w.entities ∧
        ∀ e ∈ w1.entities, ∀ a1, w1.animation e = some a1 → well_formed a1 ∧ t_in_range a1) := by
  have key : ∀ (fuel : Nat) (w1 : World) (e : Entity) (a : Component_Animation),
      e ∈ w.entities → w.animation e = some a → well_formed a → t_in_range a →
      update fuel dt w = some w1 → w1.animation e = some (animation_after a dt) := by
    intro fuel w1 e a he ha hwf _ hupd
    obtain ⟨_, _, _, _, _, hA, _⟩ := update_spec hupd
    obtain ⟨a1, texture1, h1, h2, _⟩ := hA hnd e he a ha
    obtain ⟨texture, _, hanim⟩ := animate_eq a dt hwf
      (max fuel (elapsed_frames a dt)) (le_max_right _ _)
    rw [animate_mono h1 (le_max_left _ _)] at hanim
    cases hanim
    exact h2
  constructor
  · intro fuel w1 e a he ha hwf ht hupd
    obtain ⟨hwf1, ht1⟩ := animation_after_ok a dt hwf (add_nonneg ht.1 hdt)
    exact ⟨_, key fuel w1 e a he ha hwf ht hupd, ht1, hwf1.2.2, rfl, rfl⟩
  · intro hinv
    obtain ⟨fuel0, hf⟩ := update_returns w dt hnd (fun e he a ha => (hinv e he a ha).1)
    refine ⟨fuel0, fun fuel hfuel => ?_⟩
    obtain ⟨w1, hw1⟩ := Option.isSome_iff_exists.mp (hf fuel hfuel)
    obtain ⟨hE, _, _, _, _, _, hN⟩ := update_spec hw1
    refine ⟨w1, hw1, hE, ?_⟩
    intro e he a1 ha1
    rw [hE] at he
    cases ha : w.animation e with
    | none =>
      rw [hN e ha] at ha1
      cases ha1
    | some a =>
      obtain ⟨hwf, ht⟩ := hinv e he a ha
      rw [key fuel w1 e a he ha hwf ht hw1] at ha1
      cases ha1
      exact animation_after_ok a dt hwf (add_nonneg ht.1 hdt)

theorem animation_invariant_preserved_witness :
    ((0 : ℚ) ≤ 7 / 20 ∧ sample_world.entities.Nodup) ∧
    ∃ fuel0 : Nat, ∀ fuel, fuel0 ≤ fuel → ∃ w1, update fuel (7 / 20) sample_world = some w1 ∧
      w1.entities = sample_world.entities ∧
      ∀ e ∈ w1.entities, ∀ a1, w1.animation e = some a1 → well_formed a1 ∧ t_in_range a1 := by
  have hdt : (0 : ℚ) ≤ 7 / 20 := by norm_num
  have hnd : sample_world.entities.Nodup := by simp [sample_world]
  refine ⟨⟨hdt, hnd⟩, (animation_invariant_preserved sample_world (7 / 20) hdt hnd).2 ?_⟩
  intro e _ a ha
  by_cases he : e = 0
  · subst he
    simp only [sample_world, if_true, Option.some.injEq] at ha
    subst ha
    exact ⟨sample_well_formed, sample_t_in_range⟩
  · simp [sample_world, he] at ha

/-! ### Render order -/

/-- C6: an update that returns leaves in `render_entities` a permutation of
the pairs `(sprite.z, entity)` of the system's entities (one entry per
entity, as many entries as entities), in non-decreasing order of `z`; and the
update does return, for every large enough fuel, when the entity set is
duplicate-free and the Animation data non-degenerate. -/
theorem render_entities_sorted_perm (dt : ℚ) (w : World) :
    (∀ (fuel : Nat) (w1 : World), update fuel dt w = some w1 →
      w1.entities = w.entities ∧
      w1.render_entities.Perm (w1.entities.map (fun e => ((w1.sprite e).z, e))) ∧
      w1.render_entities.length = w1.entities.length ∧
      w1.render_entities.Pairwise (fun p q => p.1 ≤ q.1)) ∧
    (w.entities.Nodup →
      (∀ e ∈ w.entities, ∀ a, w.animation e = some a → well_formed a) →
      ∃ fuel0 : Nat, ∀ fuel, fuel0 ≤ fuel → (update fuel dt w).isSome) := by
  constructor
  · intro fuel w1 h
    obtain ⟨hE, _, hZ, hR, _, _, _⟩ := update_spec h
    have hmap : w1.entities.map (fun e => ((w1.sprite e).z, e))
        = w.entities.map (fun e => ((w.sprite e).z, e)) := by
      rw [hE]
      exact List.map_congr_left (fun e _ => by rw [hZ e])
    have hperm : w1.render_entities.Perm (w1.entities.map (fun e => ((w1.sprite e).z, e))) := by
      rw [hmap, hR]
      exact std_sort_perm _ _
    refine ⟨hE, hperm, ?_, ?_⟩
    · rw [hperm.length_eq, List.length_map]
    · rw [hR]
      exact std_sort_sorted _
  · intro hnd hwf
    exact update_returns w dt hnd hwf

theorem render_entities_sorted_perm_witness :
    ∃ w1, update 3 (7 / 20) sample_world = some w1 ∧
      w1.render_entities = [(-1, 1), (0, 2), (1, 0)] ∧
      w1.entities = sample_world.entities ∧
      w1.render_entities.Perm (w1.entities.map (fun e => ((w1.sprite e).z, e))) ∧
      w1.render_entities.length = w1.entities.length ∧
      w1.render_entities.Pairwise (fun p q => p.1 ≤ q.1) := by
  have hnd : sample_world.entities.Nodup := by simp [sample_world]
  have hsome : (update 3 (7 / 20) sample_world).isSome := by
    apply update_isSome hnd
    intro e _ a ha
    by_cases he : e = 0
    · subst he
      simp only [sample_world, if_true, Option.some.injEq] at ha
      subst ha
      obtain ⟨texture, _, hanim⟩ := animate_eq sample_animation (7 / 20) sample_well_formed 3
        (le_of_eq sample_elapsed)
      simp [hanim]
    · simp [sample_world, he] at ha
  obtain ⟨w1, hw1⟩ := Option.isSome_iff_exists.mp hsome
  obtain ⟨_, _, _, hR, _, _, _⟩ := update_spec hw1
  refine ⟨w1, hw1, ?_, (render_entities_sorted_perm (7 / 20) sample_world).1 3 w1 hw1⟩
  rw [hR]
  norm_num [sample_world, sample_sprite, std_sort, sort_insert, z_less]

/-! ### The two render passes -/

/-- The positive pass draws the visible entries with `z ≥ 0`, in order. -/
theorem render_loop_positive (env : Render_Env) (w : World) (camera_aabb : Rectangle) :
    ∀ l : List (ℚ × Entity),
    render_loop env w camera_aabb Sprite_Render_Mode.positive_z l
      = (l.filter (fun p => decide ((w.sprite p.2).z ≥ 0) && visible env w camera_aabb p.2)).map
          (fun p => (p.2, draw env w p.2)) := by
  intro l
  induction l with
  | nil => simp [render_loop]
  | cons p l ih =>
    by_cases hzp : (w.sprite p.2).z < 0
    · have hnot : ¬ (w.sprite p.2).z ≥ 0 := not_le.mpr hzp
      simp [render_loop, hzp, ih, List.filter_cons]
    · have hge : (w.sprite p.2).z ≥ 0 := not_lt.mp hzp
      by_cases hv : visible env w camera_aabb p.2 = true
      · simp [render_loop, hzp, hv, ih, List.filter_cons, hge]
      · simp [render_loop, hzp, hv, ih, List.filter_cons]

/-- On a list in ascending order of the sprites' `z`, the negative pass draws
the visible entries with `z < 0`, in order: the `break` skips none of them. -/
theorem render_loop_negative (env : Render_Env) (w : World) (camera_aabb : Rectangle) :
    ∀ l : List (ℚ × Entity),
    l.Pairwise (fun p q => (w.sprite p.2).z ≤ (w.sprite q.2).z) →
    render_loop env w camera_aabb Sprite_Render_Mode.negative_z l
      = (l.filter (fun p => decide ((w.sprite p.2).z < 0) && visible env w camera_aabb p.2)).map
          (fun p => (p.2, draw env w p.2)) := by
  intro l
  induction l with
  | nil => intro _; simp [render_loop]
  | cons p l ih =>
    intro hs
    obtain ⟨hp, hl⟩ := List.pairwise_cons.mp hs
    by_cases hzp : (w.sprite p.2).z < 0
    · have hnot : ¬ (w.sprite p.2).z ≥ 0 := not_le.mpr hzp
      by_cases hv : visible env w camera_aabb p.2 = true
      · simp [render_loop, hzp, hv, ih hl, List.filter_cons]
      · simp [render_loop, hzp, hv, ih hl, List.filter_cons]
    · have hge : (w.sprite p.2).z ≥ 0 := not_lt.mp hzp
      have hnone : l.filter
          (fun p => decide ((w.sprite p.2).z < 0) && visible env w camera_aabb p.2) = [] := by
        rw [List.filter_eq_nil_iff]
        intro q hq
        have : ¬ (w.sprite q.2).z < 0 := not_lt.mpr (hge.trans (hp q hq))
        simp [this]
      simp [render_loop, hzp, hge, List.filter_cons, hnone]

/-- On a list in ascending order of `z` the entries drawn by the negative
pass followed by those of the positive pass are the visible entries. -/
theorem filter_passes (env : Render_Env) (w : World) (camera_aabb : Rectangle) :
    ∀ l : List (ℚ × Entity),
    l.Pairwise (fun p q => (w.sprite p.2).z ≤ (w.sprite q.2).z) →
    l.filter (fun p => decide ((w.sprite p.2).z < 0) && visible env w camera_aabb p.2)
      ++ l.filter (fun p => decide ((w.sprite p.2).z ≥ 0) && visible env w camera_aabb p.2)
      = l.filter (fun p => visible env w camera_aabb p.2) := by
  intro l
  induction l with
  | nil => intro _; simp
  | cons p l ih =>
    intro hs
    obtain ⟨hp, hl⟩ := List.pairwise_cons.mp hs
    by_cases hzp : (w.sprite p.2).z < 0
    · have hnot : ¬ (w.sprite p.2).z ≥ 0 := not_le.mpr hzp
      have hnot' : ¬ 0 ≤ (w.sprite p.2).z := hnot
      by_cases hv : visible env w camera_aabb p.2 = true
      · simp only [List.filter_cons, hzp, hv, hnot', decide_True, decide_False, Bool.and_self,
          Bool.false_and, if_true, List.cons_append]
        simpa using ih hl
      · simp only [List.filter_cons, hzp, hv, hnot', decide_True, decide_False,
          Bool.false_and, Bool.and_false, if_false]
        simpa using ih hl
    · have hge : (w.sprite p.2).z ≥ 0 := not_lt.mp hzp
      have hnone : (p :: l).filter
          (fun p => decide ((w.sprite p.2).z < 0) && visible env w camera_aabb p.2) = [] := by
        rw [List.filter_eq_nil_iff]
        intro q hq
        have hq0 : (w.sprite q.2).z ≥ 0 := by
          rcases List.mem_cons.mp hq with rfl | hq
          · exact hge
          · exact hge.trans (hp q hq)
        have : ¬ (w.sprite q.2).z < 0 := not_lt.mpr hq0
        simp [this]
      rw [hnone, List.nil_append]
      apply List.filter_congr
      intro q hq
      have hq0 : (w.sprite q.2).z ≥ 0 := by
        rcases List.mem_cons.mp hq with rfl | hq
        · exact hge
        · exact hge.trans (hp q hq)
      simp [hq0]

/-- The render order an update leaves is sorted by the recorded `z`, and the
recorded `z` of each entry is the `z` of the entry's sprite. -/
theorem update_leaves_render_order {fuel : Nat} {dt : ℚ} {w w1 : World}
    (h : update fuel dt w = some w1) :
    w1.render_entities.Pairwise (fun p q => p.1 ≤ q.1) ∧
    ∀ p ∈ w1.render_entities, (w1.sprite p.2).z = p.1 := by
  obtain ⟨_, _, hZ, hR, _, _, _⟩ := update_spec h
  refine ⟨by rw [hR]; exact std_sort_sorted _, ?_⟩
  intro p hp
  rw [hR] at hp
  have hp' := (std_sort_perm z_less _).mem_iff.mp hp
  obtain ⟨e, _, rfl⟩ := List.mem_map.mp hp'
  exact hZ e

/-- C7: on a render order sorted ascending by the recorded `z`, each recorded
`z` being the current `z` of its sprite (what `update` leaves, see
`update_leaves_render_order`), the negative pass draws exactly the visible
entries with `z < 0` and the positive pass exactly the visible entries with
`z ≥ 0`, each in render order; nothing drawn in the negative pass is drawn
in the positive pass, and the draws of the negative pass followed by those of
the positive pass are the draws of all visible entries. -/
theorem two_pass_partition (env : Render_Env) (w : World) (camera_aabb : Rectangle)
    (hsorted : w.render_entities.Pairwise (fun p q => p.1 ≤ q.1))
    (hz : ∀ p ∈ w.render_entities, (w.sprite p.2).z = p.1) :
    render env w camera_aabb Sprite_Render_Mode.negative_z
      = (w.render_entities.filter
          (fun p => decide ((w.sprite p.2).z < 0) && visible env w camera_aabb p.2)).map
          (fun p => (p.2, draw env w p.2)) ∧
    render env w camera_aabb Sprite_Render_Mode.positive_z
      = (w.render_entities.filter
          (fun p => decide ((w.sprite p.2).z ≥ 0) && visible env w camera_aabb p.2)).map
          (fun p => (p.2, draw env w p.2)) ∧
    (∀ d ∈ render env w camera_aabb Sprite_Render_Mode.negative_z,
      d ∉ render env w camera_aabb Sprite_Render_Mode.positive_z) ∧
    render env w camera_aabb Sprite_Render_Mode.negative_z
        ++ render env w camera_aabb Sprite_Render_Mode.positive_z
      = (w.render_entities.filter (fun p => visible env w camera_aabb p.2)).map
          (fun p => (p.2, draw env w p.2)) := by
  have hs : w.render_entities.Pairwise (fun p q => (w.sprite p.2).z ≤ (w.sprite q.2).z) :=
    hsorted.imp_of_mem (fun {p q} hp hq hpq => by rw [hz p hp, hz q hq]; exact hpq)
  have hneg := render_loop_negative env w camera_aabb w.render_entities hs
  have hpos := render_loop_positive env w camera_aabb w.render_entities
  refine ⟨hneg, hpos, ?_, ?_⟩
  · intro d hd hd'
    unfold render at hd hd'
    rw [hneg] at hd
    rw [hpos] at hd'
    obtain ⟨p, hp, rfl⟩ := List.mem_map.mp hd
    obtain ⟨q, hq, hqp⟩ := List.mem_map.mp hd'
    have hpq : q.2 = p.2 := congrArg Prod.fst hqp
    have h1 := (List.mem_filter.mp hp).2
    have h2 := (List.mem_filter.mp hq).2
    rw [hpq] at h2
    simp only [Bool.and_eq_true, decide_eq_true_eq] at h1 h2
    exact absurd h1.1 (not_lt.mpr h2.1)
  · unfold render
    rw [hneg, hpos, ← List.map_append, filter_passes env w camera_aabb _ hs]

theorem two_pass_partition_witness :
    (sample_render_world.render_entities.Pairwise (fun p q => p.1 ≤ q.1) ∧
      ∀ p ∈ sample_render_world.render_entities, (sample_render_world.sprite p.2).z = p.1) ∧
    (render sample_env sample_render_world sample_camera Sprite_Render_Mode.negative_z).map
      Prod.fst = [1] ∧
    (render sample_env sample_render_world sample_camera Sprite_Render_Mode.positive_z).map
      Prod.fst = [2, 0] := by
  have hsorted : sample_render_world.render_entities.Pairwise (fun p q => p.1 ≤ q.1) := by
    norm_num [sample_render_world]
  have hz : ∀ p ∈ sample_render_world.render_entities,
      (sample_render_world.sprite p.2).z = p.1 := by
    intro p hp
    simp only [sample_render_world, List.mem_cons, List.mem_singleton, List.not_mem_nil,
      or_false] at hp
    rcases hp with rfl | rfl | rfl | rfl <;> norm_num [sample_render_world, sample_sprite]
  obtain ⟨hneg, hpos, _, _⟩ :=
    two_pass_partition sample_env sample_render_world sample_camera hsorted hz
  refine ⟨⟨hsorted, hz⟩, ?_, ?_⟩
  · rw [hneg]
    norm_num [sample_render_world, sample_sprite, sample_env, sample_camera, visible,
      sprite_position, List.filter_cons]
  · rw [hpos]
    norm_num [sample_render_world, sample_sprite, sample_env, sample_camera, visible,
      sprite_position, List.filter_cons]

end System_Sprite_Render

end Coinrun

/-! ## Theorems: System_Mob_AI -/

namespace Coinrun

namespace System_Mob_AI

theorem none_ne_full : Collision_Type.none ≠ Collision_Type.full := by
  decide

theorem wall_classify_empty : wall_classify Tile_ID.empty = Collision_Type.none := by
  decide

theorem floor_classify_empty : floor_classify Tile_ID.empty = Collision_Type.full := by
  decide

/-- The loop body of an entity leaves the components of the others alone. -/
theorem update_entity_other {TM : Type} (ops : Tilemap_Ops TM) (tilemap : TM) (dt : ℚ)
    (w : World) (e e1 : Entity) (hne : e1 ≠ e) :
    (update_entity ops tilemap dt w e).mob_ai e1 = w.mob_ai e1 ∧
    (update_entity ops tilemap dt w e).transform e1 = w.transform e1 := by
  simp [update_entity, Function.update_noteq hne]

/-- The loop over `es`: an entity outside `es` keeps its components, and an
entity of a duplicate-free `es` gets the result of the loop body on the
components it had. -/
theorem foldl_update_entity {TM : Type} (ops : Tilemap_Ops TM) (tilemap : TM) (dt : ℚ)
    (e : Entity) : ∀ (es : List Entity) (w : World),
    (e ∉ es →
      (es.foldl (update_entity ops tilemap dt) w).mob_ai e = w.mob_ai e ∧
      (es.foldl (update_entity ops tilemap dt) w).transform e = w.transform e) ∧
    (es.Nodup → e ∈ es →
      (es.foldl (update_entity ops tilemap dt) w).mob_ai e
        = (update_components ops tilemap dt (w.mob_ai e) (w.transform e)).1 ∧
      (es.foldl (update_entity ops tilemap dt) w).transform e
        = (update_components ops tilemap dt (w.mob_ai e) (w.transform e)).2) := by
  intro es
  induction es with
  | nil =>
    intro w
    exact ⟨fun _ => ⟨rfl, rfl⟩, fun _ h => absurd h (List.not_mem_nil e)⟩
  | cons e0 es ih =>
    intro w
    obtain ⟨ihout, ihin⟩ := ih (update_entity ops tilemap dt w e0)
    constructor
    · intro hnot
      have hne : e ≠ e0 := fun hc => hnot (hc ▸ List.mem_cons_self _ _)
      have hnm : e ∉ es := fun hc => hnot (List.mem_cons_of_mem _ hc)
      obtain ⟨h1, h2⟩ := ihout hnm
      obtain ⟨h3, h4⟩ := update_entity_other ops tilemap dt w e0 e hne
      exact ⟨by rw [List.foldl_cons, h1, h3], by rw [List.foldl_cons, h2, h4]⟩
    · intro hnd hmem
      obtain ⟨hnotin, hnd'⟩ := List.nodup_cons.mp hnd
      rcases List.mem_cons.mp hmem with rfl | hm
      · obtain ⟨h1, h2⟩ := ihout hnotin
        rw [List.foldl_cons, h1, h2]
        simp [update_entity]
      · have hne : e ≠ e0 := fun hc => hnotin (hc ▸ hm)
        obtain ⟨h1, h2⟩ := ihin hnd' hm
        obtain ⟨h3, h4⟩ := update_entity_other ops tilemap dt w e0 e hne
        rw [List.foldl_cons, h1, h2, h3, h4]
        exact ⟨rfl, rfl⟩

/-- At the end of `update` the velocity of a patrol entity is decided by the
sum of the three corrections its sensors got. -/
theorem update_velocity_x {TM : Type} (ops : Tilemap_Ops TM) (tilemap : TM) (dt : ℚ)
    (w : World) (e : Entity) (hnd : w.entities.Nodup) (he : e ∈ w.entities) :
    ((update ops tilemap dt w).mob_ai e).velocity_x
      = if decide (wall_correction_x ops tilemap dt (w.mob_ai e) (w.transform e)
            + floor_left_correction_x ops tilemap dt (w.mob_ai e) (w.transform e)
            + floor_right_correction_x ops tilemap dt (w.mob_ai e) (w.transform e) > 0)
          != decide ((w.mob_ai e).velocity_x > 0)
        then (w.mob_ai e).velocity_x * (-1) else (w.mob_ai e).velocity_x := by
  unfold update
  rw [((foldl_update_entity ops tilemap dt e w.entities w).2 hnd he).1]
  rfl

/-- C8 (refuted as written): a patrol actor moving right, wall correction
`-0.1`, left floor correction `+0.2`: the summed correction is positive and
`velocity_x` is kept. -/
theorem outweighed_wall_correction_keeps_velocity :
    (sample_world.mob_ai 0).velocity_x > 0 ∧
    wall_correction_x (sample_ops (-1 / 10) (1 / 5) 0) () (1 / 10)
      (sample_world.mob_ai 0) (sample_world.transform 0) = -1 / 10 ∧
    ((update (sample_ops (-1 / 10) (1 / 5) 0) () (1 / 10) sample_world).mob_ai 0).velocity_x
      = 1 ∧
    ((update (sample_ops (-1 / 10) (1 / 5) 0) () (1 / 10) sample_world).mob_ai 0).velocity_x
      ≠ -(sample_world.mob_ai 0).velocity_x := by
  have hnd : sample_world.entities.Nodup := by simp [sample_world]
  have he : (0 : Entity) ∈ sample_world.entities := by simp [sample_world]
  have hv := update_velocity_x (sample_ops (-1 / 10) (1 / 5) 0) () (1 / 10) sample_world 0 hnd he
  have h1 : ((update (sample_ops (-1 / 10) (1 / 5) 0) () (1 / 10) sample_world).mob_ai
      0).velocity_x = 1 := by
    rw [hv]
    norm_num [wall_correction_x, floor_left_correction_x, floor_right_correction_x, sample_ops,
      sample_world, moved, wall_sensor, floor_sensor_left, floor_sensor_right, wall_classify_empty,
      floor_classify_empty, none_ne_full]
  refine ⟨by norm_num [sample_world], ?_, h1, ?_⟩
  · norm_num [wall_correction_x, sample_ops, wall_classify_empty, none_ne_full]
  · rw [h1]
    norm_num [sample_world]

/-- C8 (amended): a patrol actor moving right whose wall-sensor query returns
a correction with negative x has `velocity_x` negated by the end of `update`,
for every `dt` and all floor-sensor answers that leave the summed correction
`delta_x` negative; this is so in particular whenever neither floor
correction has a positive x component. -/
theorem wall_rebound {TM : Type} (ops : Tilemap_Ops TM) (tilemap : TM) (dt : ℚ)
    (w : World) (e : Entity) (hnd : w.entities.Nodup) (he : e ∈ w.entities)
    (hv : (w.mob_ai e).velocity_x > 0)
    (hwall : wall_correction_x ops tilemap dt (w.mob_ai e) (w.transform e) < 0) :
    (wall_correction_x ops tilemap dt (w.mob_ai e) (w.transform e)
        + floor_left_correction_x ops tilemap dt (w.mob_ai e) (w.transform e)
        + floor_right_correction_x ops tilemap dt (w.mob_ai e) (w.transform e) < 0 →
      ((update ops tilemap dt w).mob_ai e).velocity_x = -(w.mob_ai e).velocity_x) ∧
    (floor_left_correction_x ops tilemap dt (w.mob_ai e) (w.transform e) ≤ 0 →
      floor_right_correction_x ops tilemap dt (w.mob_ai e) (w.transform e) ≤ 0 →
      ((update ops tilemap dt w).mob_ai e).velocity_x = -(w.mob_ai e).velocity_x) := by
  have key : wall_correction_x ops tilemap dt (w.mob_ai e) (w.transform e)
        + floor_left_correction_x ops tilemap dt (w.mob_ai e) (w.transform e)
        + floor_right_correction_x ops tilemap dt (w.mob_ai e) (w.transform e) < 0 →
      ((update ops tilemap dt w).mob_ai e).velocity_x = -(w.mob_ai e).velocity_x := by
    intro hsum
    rw [update_velocity_x ops tilemap dt w e hnd he]
    have hnot : ¬ (wall_correction_x ops tilemap dt (w.mob_ai e) (w.transform e)
        + floor_left_correction_x ops tilemap dt (w.mob_ai e) (w.transform e)
        + floor_right_correction_x ops tilemap dt (w.mob_ai e) (w.transform e) > 0) :=
      not_lt.mpr hsum.le
    simp [hnot, hv]
  refine ⟨key, fun hleft hright => key ?_⟩
  linarith

theorem wall_rebound_witness :
    ((update (sample_ops (-1 / 10) (1 / 20) 0) () (1 / 10) sample_world).mob_ai 0).velocity_x
      = -(sample_world.mob_ai 0).velocity_x ∧
    ((update (sample_ops (-1 / 10) 0 0) () (1 / 10) sample_world).mob_ai 0).velocity_x
      = -(sample_world.mob_ai 0).velocity_x := by
  have hnd : sample_world.entities.Nodup := by simp [sample_world]
  have he : (0 : Entity) ∈ sample_world.entities := by simp [sample_world]
  have hv : (sample_world.mob_ai 0).velocity_x > 0 := by norm_num [sample_world]
  constructor
  · refine (wall_rebound (sample_ops (-1 / 10) (1 / 20) 0) () (1 / 10) sample_world 0 hnd he hv
      ?_).1 ?_
    · norm_num [wall_correction_x, sample_ops, wall_classify_empty, none_ne_full]
    · norm_num [wall_correction_x, floor_left_correction_x, floor_right_correction_x,
        sample_ops, sample_world, moved, wall_sensor, floor_sensor_left, floor_sensor_right,
        wall_classify_empty, floor_classify_empty, none_ne_full]
  · refine (wall_rebound (sample_ops (-1 / 10) 0 0) () (1 / 10) sample_world 0 hnd he hv
      ?_).2 ?_ ?_
    · norm_num [wall_correction_x, sample_ops, wall_classify_empty, none_ne_full]
    · norm_num [floor_left_correction_x, sample_ops, sample_world, moved, floor_sensor_left,
        floor_classify_empty]
    · norm_num [floor_right_correction_x, sample_ops, sample_world, moved, floor_sensor_right,
        floor_classify_empty]

/-- C9: the classifier of both floor-sensor queries returns `full` exactly
for the empty tile and `none` for every other tile; the classifier of the
wall-sensor query returns `full` exactly for `wall_mid` and `wall_top` and
`none` otherwise; the velocity at the end of `update` depends on the tile map
only through the three queries with these classifiers; and a patrol actor
moving right with zero wall correction and zero left-floor correction whose
right floor sensor gets a correction with negative x has `velocity_x`
negated. -/
theorem ledge_detection :
    (∀ id, floor_classify id = Collision_Type.full ↔ id = Tile_ID.empty) ∧
    (∀ id, id ≠ Tile_ID.empty → floor_classify id = Collision_Type.none) ∧
    (∀ id, wall_classify id = Collision_Type.full ↔
      (id = Tile_ID.wall_mid ∨ id = Tile_ID.wall_top)) ∧
    (∀ id, ¬ (id = Tile_ID.wall_mid ∨ id = Tile_ID.wall_top) →
      wall_classify id = Collision_Type.none) ∧
    (∀ (TM : Type) (ops : Tilemap_Ops TM) (tilemap : TM) (dt : ℚ) (w : World) (e : Entity),
      w.entities.Nodup → e ∈ w.entities → (w.mob_ai e).velocity_x > 0 →
      wall_correction_x ops tilemap dt (w.mob_ai e) (w.transform e) = 0 →
      floor_left_correction_x ops tilemap dt (w.mob_ai e) (w.transform e) = 0 →
      floor_right_correction_x ops tilemap dt (w.mob_ai e) (w.transform e) < 0 →
      ((update ops tilemap dt w).mob_ai e).velocity_x = -(w.mob_ai e).velocity_x) := by
  refine ⟨?_, ?_, ?_, ?_, ?_⟩
  · intro id
    by_cases h : id = Tile_ID.empty <;> simp [floor_classify, h]
  · intro id h
    simp [floor_classify, h]
  · intro id
    by_cases h : id = Tile_ID.wall_mid ∨ id = Tile_ID.wall_top <;> simp [wall_classify, h]
  · intro id h
    simp [wall_classify, h]
  · intro TM ops tilemap dt w e hnd he hv hwall hleft hright
    rw [update_velocity_x ops tilemap dt w e hnd he, hwall, hleft]
    have hnot : ¬ (0 < floor_right_correction_x ops tilemap dt (w.mob_ai e) (w.transform e)) :=
      not_lt.mpr hright.le
    simp [hnot, hv]

theorem ledge_detection_witness :
    floor_right_correction_x (sample_ops 0 0 (-1 / 10)) () (1 / 10)
      (sample_world.mob_ai 0) (sample_world.transform 0) = -1 / 10 ∧
    ((update (sample_ops 0 0 (-1 / 10)) () (1 / 10) sample_world).mob_ai 0).velocity_x
      = -(sample_world.mob_ai 0).velocity_x := by
  have hright : floor_right_correction_x (sample_ops 0 0 (-1 / 10)) () (1 / 10)
      (sample_world.mob_ai 0) (sample_world.transform 0) = -1 / 10 := by
    norm_num [floor_right_correction_x, sample_ops, sample_world, moved, floor_sensor_right,
      floor_classify_empty]
  refine ⟨hright, ?_⟩
  apply ledge_detection.2.2.2.2 Unit (sample_ops 0 0 (-1 / 10)) () (1 / 10) sample_world 0
  · simp [sample_world]
  · simp [sample_world]
  · norm_num [sample_world]
  · norm_num [wall_correction_x, sample_ops, wall_classify_empty, none_ne_full]
  · norm_num [floor_left_correction_x, sample_ops, sample_world, moved, floor_sensor_left,
      floor_classify_empty]
  · rw [hright]
    norm_num

end System_Mob_AI

/-! ## Theorems: helpers.cpp -/

/-- C10 (the code departs from the claim): for the rectangle
`(x 0, y 10, width 2, height 2)` and rotation 0 (cosine 1, sine 0) the minimal
box of the rotated corners is the rectangle itself, but `rotatedAABB` returns
`(x 0, y 0, width 2, height 11)`, which is not the rectangle and does not
contain the corner `(2, 12)`. -/
theorem rotatedAABB_zero_rotation (cos sin : ℚ → ℚ) (hcos : cos 0 = 1) (hsin : sin 0 = 0) :
    is_minimal_rotated_box (cos 0) (sin 0) ⟨0, 10, 2, 2⟩ ⟨0, 10, 2, 2⟩ ∧
    rotatedAABB cos sin ⟨0, 10, 2, 2⟩ 0 = ⟨0, 0, 2, 11⟩ ∧
    rotatedAABB cos sin ⟨0, 10, 2, 2⟩ 0 ≠ ⟨0, 10, 2, 2⟩ ∧
    ¬ is_minimal_rotated_box (cos 0) (sin 0) ⟨0, 10, 2, 2⟩ (rotatedAABB cos sin ⟨0, 10, 2, 2⟩ 0) := by
  have hval : rotatedAABB cos sin ⟨0, 10, 2, 2⟩ 0 = ⟨0, 0, 2, 11⟩ := by
    norm_num [rotatedAABB, expand_bounds, hcos, hsin]
  refine ⟨?_, hval, ?_, ?_⟩
  · rw [hcos, hsin]
    constructor
    · intro p hp
      simp only [rotated_corners, rotated_corner, List.mem_cons, List.mem_singleton,
        List.not_mem_nil, or_false] at hp
      rcases hp with rfl | rfl | rfl | rfl <;> norm_num [Rectangle.contains]
    · intro other hother
      have h1 := hother (rotated_corner 1 0 ⟨0, 10, 2, 2⟩ (-1) (-1)) (by simp [rotated_corners])
      have h2 := hother (rotated_corner 1 0 ⟨0, 10, 2, 2⟩ 1 1) (by simp [rotated_corners])
      norm_num [Rectangle.contains, rotated_corner] at h1 h2
      norm_num
      exact ⟨h1.1, h2.2.1, h1.2.2.1, h2.2.2.2⟩
  · rw [hval]
    decide
  · rw [hval, hcos, hsin]
    intro h
    have h2 := h.1 (rotated_corner 1 0 ⟨0, 10, 2, 2⟩ 1 1) (by simp [rotated_corners])
    norm_num [Rectangle.contains, rotated_corner] at h2

theorem rotatedAABB_zero_rotation_witness :
    rotatedAABB (fun _ => 1) (fun _ => 0) ⟨0, 10, 2, 2⟩ 0 = ⟨0, 0, 2, 11⟩ :=
  (rotatedAABB_zero_rotation (fun _ => 1) (fun _ => 0) rfl rfl).2.1

end Coinrun

/-! ## Theorems: System_Mob_AI, the rebound rule -/

namespace Coinrun

namespace System_Mob_AI

/-- C11 (the code departs from the claim): with all three sensor corrections
zero, a patrol actor moving left keeps `velocity_x = -1`, but a patrol actor
moving right has `velocity_x = 1` negated to `-1`: line 108 compares
`delta_x > 0` with `velocity_x > 0`, and `0 > 0` is false. -/
theorem zero_correction_reverses_right_mover :
    (wall_correction_x (sample_ops 0 0 0) () (1 / 10)
        (sample_world.mob_ai 0) (sample_world.transform 0) = 0 ∧
      floor_left_correction_x (sample_ops 0 0 0) () (1 / 10)
        (sample_world.mob_ai 0) (sample_world.transform 0) = 0 ∧
      floor_right_correction_x (sample_ops 0 0 0) () (1 / 10)
        (sample_world.mob_ai 0) (sample_world.transform 0) = 0) ∧
    (sample_world.mob_ai 0).velocity_x = 1 ∧
    ((update (sample_ops 0 0 0) () (1 / 10) sample_world).mob_ai 0).velocity_x = -1 ∧
    (sample_world_left.mob_ai 0).velocity_x = -1 ∧
    ((update (sample_ops 0 0 0) () (1 / 10) sample_world_left).mob_ai 0).velocity_x = -1 := by
  have hnd : sample_world.entities.Nodup := by simp [sample_world]
  have he : (0 : Entity) ∈ sample_world.entities := by simp [sample_world]
  have hndl : sample_world_left.entities.Nodup := by simp [sample_world_left]
  have hel : (0 : Entity) ∈ sample_world_left.entities := by simp [sample_world_left]
  refine ⟨⟨?_, ?_, ?_⟩, rfl, ?_, rfl, ?_⟩
  · norm_num [wall_correction_x, sample_ops, wall_classify_empty, none_ne_full]
  · norm_num [floor_left_correction_x, sample_ops, floor_classify_empty]
  · norm_num [floor_right_correction_x, sample_ops, floor_classify_empty]
  · rw [update_velocity_x (sample_ops 0 0 0) () (1 / 10) sample_world 0 hnd he]
    norm_num [wall_correction_x, floor_left_correction_x, floor_right_correction_x, sample_ops,
      sample_world, wall_classify_empty, floor_classify_empty, none_ne_full]
  · rw [update_velocity_x (sample_ops 0 0 0) () (1 / 10) sample_world_left 0 hndl hel]
    norm_num [wall_correction_x, floor_left_correction_x, floor_right_correction_x, sample_ops,
      sample_world_left, wall_classify_empty, floor_classify_empty, none_ne_full]

end System_Mob_AI

end Coinrun

/-! ## Theorems: System_Agent, one update in parts -/

namespace Coinrun

namespace System_Agent

/-- The velocity an update leaves, by component. -/
theorem update_velocity {TM : Type} (ops : Tilemap_Ops TM) (dt : ℚ) (w : World TM) :
    (update ops dt w).dynamics.velocity
      = ⟨next_velocity_x w.agent.on_ground w.agent.action w.dynamics.velocity.x,
          next_velocity_y w.agent.on_ground w.agent.action dt w.dynamics.velocity.y⟩ :=
  rfl

/-- The tile map an update leaves: the refresh of line 178 after the
fall-through mark. -/
theorem update_tilemap {TM : Type} (ops : Tilemap_Ops TM) (dt : ℚ) (w : World TM) :
    (update ops dt w).tilemap
      = ops.update_no_collide (after_fallthrough ops w) (world_collision w)
          ⟨w.transform.position.x - 8, w.transform.position.x - 8, 16, 16⟩ :=
  rfl

/-- The position an update leaves: the position before, moved by the new
velocity and corrected by the answer to the query of line 184. -/
theorem update_position {TM : Type} (ops : Tilemap_Ops TM) (dt : ℚ) (w : World TM) :
    (update ops dt w).transform.position
      = ⟨w.transform.position.x + (update ops dt w).dynamics.velocity.x * dt
            + (ops.get_collision_offset (update ops dt w).tilemap w.collision.bounds classify).x,
          w.transform.position.y + (update ops dt w).dynamics.velocity.y * dt
            + (ops.get_collision_offset (update ops dt w).tilemap w.collision.bounds classify).y⟩ :=
  rfl

/-- The flag an update leaves. -/
theorem update_on_ground {TM : Type} (ops : Tilemap_Ops TM) (dt : ℚ) (w : World TM) :
    (update ops dt w).agent.on_ground
      = decide ((ops.get_collision_offset (update ops dt w).tilemap w.collision.bounds
          classify).y ≥ 0) :=
  rfl

/-- The decoded movement is one of `1`, `0`, `-1`. -/
theorem movement_x_cases (action : Int) :
    movement_x action = 1 ∨ movement_x action = 0 ∨ movement_x action = -1 := by
  unfold movement_x bool_to_int
  split_ifs <;> simp

theorem mix_x_cases (on_ground : Bool) :
    (on_ground = true ∧ mix_x on_ground = 1 / 5) ∨
    (on_ground = false ∧ mix_x on_ground = 3 / 100) := by
  cases on_ground
  · right
    exact ⟨rfl, by norm_num [mix_x, mix, air_control]⟩
  · left
    exact ⟨rfl, by norm_num [mix_x, mix]⟩

/-! ### The calls on the tile map -/

/-- C12 (the code departs from the claim): the query of line 184 is made
with `collision.bounds` itself, the hull relative to the agent, whatever the
agent's position.  For every tile oracle the correction applied is the answer
to the query for `collision.bounds`; with an oracle that answers the corner of
the query box, the agent at `(3, 10)` with hull `(-0.5, -1, 1, 1)` is corrected
by `(-0.5, -1)` and leaves the ground, where the hull placed at the position
after the move, `(2.5, 9, 1, 1)`, would be answered `(2.5, 9)`. -/
theorem collision_query_box_is_relative :
    (∀ (TM : Type) (ops : Tilemap_Ops TM) (dt : ℚ) (w : World TM),
      (update ops dt w).transform.position
        = ⟨w.transform.position.x + (update ops dt w).dynamics.velocity.x * dt
              + (ops.get_collision_offset (update ops dt w).tilemap w.collision.bounds
                  classify).x,
            w.transform.position.y + (update ops dt w).dynamics.velocity.y * dt
              + (ops.get_collision_offset (update ops dt w).tilemap w.collision.bounds
                  classify).y⟩) ∧
    (∀ (dt : ℚ) (w : World (List Tilemap_Call)),
      (update (recording_ops (fun box => ⟨box.x, box.y⟩)) dt w).transform.position.x
        = w.transform.position.x
          + (update (recording_ops (fun box => ⟨box.x, box.y⟩)) dt w).dynamics.velocity.x * dt
          + w.collision.bounds.x ∧
      (update (recording_ops (fun box => ⟨box.x, box.y⟩)) dt w).agent.on_ground
        = decide (w.collision.bounds.y ≥ 0)) ∧
    (update (recording_ops (fun box => ⟨box.x, box.y⟩)) 1
        (sample_world true 4 ⟨0, 0⟩)).transform.position = ⟨5 / 2, 9⟩ ∧
    (update (recording_ops (fun box => ⟨box.x, box.y⟩)) 1
        (sample_world true 4 ⟨0, 0⟩)).agent.on_ground = false := by
  refine ⟨fun TM ops dt w => update_position ops dt w, fun dt w => ⟨rfl, rfl⟩, ?_, ?_⟩
  · rw [update_position, update_velocity]
    norm_num [recording_ops, sample_world, next_velocity_x, next_velocity_y, mix_x, mix,
      max_speed, max_jump, movement_x, bool_to_int, jump]
  · rw [update_on_ground]
    norm_num [recording_ops, sample_world]

/-- C13 (the code departs from the claim): the region handed to
`update_no_collide` is `(position.x - 8, position.x - 8, 16, 16)`, with the
x coordinate in both places, and the hull is the world-space hull.  For the
agent at `(3, 10)` the recorded call has region `(-5, -5, 16, 16)`, not the
box `(-5, 2, 16, 16)` centred on the agent. -/
theorem no_collide_region_uses_x_twice :
    (∀ (TM : Type) (ops : Tilemap_Ops TM) (dt : ℚ) (w : World TM),
      (update ops dt w).tilemap
        = ops.update_no_collide (after_fallthrough ops w)
            ⟨w.transform.position.x + w.collision.bounds.x,
              w.transform.position.y + w.collision.bounds.y,
              w.collision.bounds.width, w.collision.bounds.height⟩
            ⟨w.transform.position.x - 8, w.transform.position.x - 8, 16, 16⟩) ∧
    (update (recording_ops (fun _ => ⟨0, 0⟩)) 1 (sample_world true 4 ⟨0, 0⟩)).tilemap
      = [Tilemap_Call.update_no_collide ⟨5 / 2, 9, 1, 1⟩ ⟨-5, -5, 16, 16⟩] ∧
    (update (recording_ops (fun _ => ⟨0, 0⟩)) 1 (sample_world true 4 ⟨0, 0⟩)).tilemap
      ≠ [Tilemap_Call.update_no_collide ⟨5 / 2, 9, 1, 1⟩ ⟨-5, 2, 16, 16⟩] := by
  have hval : (update (recording_ops (fun _ => ⟨0, 0⟩)) 1 (sample_world true 4 ⟨0, 0⟩)).tilemap
      = [Tilemap_Call.update_no_collide ⟨5 / 2, 9, 1, 1⟩ ⟨-5, -5, 16, 16⟩] := by
    rw [update_tilemap]
    norm_num [recording_ops, sample_world, after_fallthrough, world_collision, jump, fallthrough]
  refine ⟨fun TM ops dt w => update_tilemap ops dt w, hval, ?_⟩
  rw [hval]
  norm_num

/-- The fall-through mark is made exactly for the action codes 0, 3 and 6. -/
theorem after_fallthrough_eq {TM : Type} (ops : Tilemap_Ops TM) (w : World TM) :
    after_fallthrough ops w
      = if w.agent.action = 0 ∨ w.agent.action = 3 ∨ w.agent.action = 6 then
          ops.set_no_collide w.tilemap w.transform.position.x w.transform.position.y
        else w.tilemap := by
  unfold after_fallthrough jump fallthrough
  by_cases h : w.agent.action = 0 ∨ w.agent.action = 3 ∨ w.agent.action = 6
  · rw [if_pos h]
    rcases h with h | h | h <;> simp [h]
  · rw [if_neg h]
    have h0 : ¬ w.agent.action = 0 := fun hc => h (Or.inl hc)
    have h3 : ¬ w.agent.action = 3 := fun hc => h (Or.inr (Or.inl hc))
    have h6 : ¬ w.agent.action = 6 := fun hc => h (Or.inr (Or.inr hc))
    simp [h0, h3, h6]

/-- C19: for every integer action code `jump` and `fallthrough` are not both
true; the tile map after lines 165 to 168 is `set_no_collide` at the position
before the move exactly when the action is 0, 3 or 6 (seen in the record of
calls: that one call, then the one `update_no_collide` call), and is
untouched otherwise; and every action code outside `0..8` decodes to
movement 0, no jump, no fall-through. -/
theorem decode_exclusive :
    (∀ action : Int, ¬ (jump action = true ∧ fallthrough action = true)) ∧
    (∀ (TM : Type) (ops : Tilemap_Ops TM) (w : World TM),
      after_fallthrough ops w
        = if w.agent.action = 0 ∨ w.agent.action = 3 ∨ w.agent.action = 6 then
            ops.set_no_collide w.tilemap w.transform.position.x w.transform.position.y
          else w.tilemap) ∧
    (∀ (answer : Rectangle → Vector2) (dt : ℚ) (w : World (List Tilemap_Call)),
      ∃ hull region, (update (recording_ops answer) dt w).tilemap
        = w.tilemap
          ++ (if w.agent.action = 0 ∨ w.agent.action = 3 ∨ w.agent.action = 6 then
                [Tilemap_Call.set_no_collide w.transform.position.x w.transform.position.y]
              else [])
          ++ [Tilemap_Call.update_no_collide hull region]) ∧
    (∀ action : Int, action < 0 ∨ 8 < action → decode action = (0, false, false)) := by
  refine ⟨?_, fun TM ops w => after_fallthrough_eq ops w, ?_, ?_⟩
  · intro action h
    obtain ⟨hj, hf⟩ := h
    simp only [jump, fallthrough, Bool.or_eq_true, beq_iff_eq] at hj hf
    omega
  · intro answer dt w
    refine ⟨world_collision w,
      ⟨w.transform.position.x - 8, w.transform.position.x - 8, 16, 16⟩, ?_⟩
    rw [update_tilemap, after_fallthrough_eq]
    by_cases h : w.agent.action = 0 ∨ w.agent.action = 3 ∨ w.agent.action = 6
    · simp [h, recording_ops]
    · simp [h, recording_ops]
  · intro action h
    have h0 : ¬ action = 0 := by omega
    have h1 : ¬ action = 1 := by omega
    have h2 : ¬ action = 2 := by omega
    have h3 : ¬ action = 3 := by omega
    have h5 : ¬ action = 5 := by omega
    have h6 : ¬ action = 6 := by omega
    have h7 : ¬ action = 7 := by omega
    have h8 : ¬ action = 8 := by omega
    simp [decode, movement_x, bool_to_int, jump, fallthrough, h0, h1, h2, h3, h5, h6, h7, h8]

theorem decode_exclusive_witness :
    decode 9 = (0, false, false) ∧ decode (-1) = (0, false, false) :=
  ⟨decode_exclusive.2.2.2 9 (Or.inr (by decide)),
    decode_exclusive.2.2.2 (-1) (Or.inl (by decide))⟩

/-! ### Horizontal velocity -/

/-- The blend keeps the speed within `max_speed`. -/
theorem next_velocity_x_abs_le (on_ground : Bool) (action : Int) (vx : ℚ)
    (hv : |vx| ≤ 1 / 2) : |next_velocity_x on_ground action vx| ≤ 1 / 2 := by
  obtain ⟨h1, h2⟩ := abs_le.mp hv
  unfold next_velocity_x
  simp only [max_speed]
  split_ifs with hs
  · norm_num
  · rw [abs_le]
    rcases mix_x_cases on_ground with ⟨_, hm⟩ | ⟨_, hm⟩ <;>
      rcases movement_x_cases action with ha | ha | ha <;>
      rw [hm, ha] <;> constructor <;> linarith

/-- After the snap the velocity is zero or at least the threshold. -/
theorem next_velocity_x_zero_or_ge (on_ground : Bool) (action : Int) (vx : ℚ) :
    next_velocity_x on_ground action vx = 0 ∨
      mix_x on_ground * max_speed ≤ |next_velocity_x on_ground action vx| := by
  unfold next_velocity_x
  simp only
  split_ifs with hs
  · left
    rfl
  · right
    exact not_lt.mp hs

/-- C15: for every action code, either value of `on_ground` and every `dt`,
a horizontal velocity of magnitude at most `max_speed = 0.5` before `update`
has magnitude at most 0.5 after it, and the new horizontal velocity is zero
or of magnitude at least `mix_x * max_speed`, which is 0.1 on the ground and
0.015 in the air. -/
theorem horizontal_speed_bound {TM : Type} (ops : Tilemap_Ops TM) (dt : ℚ) (w : World TM)
    (hv : |w.dynamics.velocity.x| ≤ 1 / 2) :
    max_speed = 1 / 2 ∧
    |(update ops dt w).dynamics.velocity.x| ≤ 1 / 2 ∧
    ((update ops dt w).dynamics.velocity.x = 0 ∨
      mix_x w.agent.on_ground * max_speed ≤ |(update ops dt w).dynamics.velocity.x|) ∧
    mix_x true * max_speed = 1 / 10 ∧ mix_x false * max_speed = 3 / 200 := by
  rw [update_velocity]
  refine ⟨rfl, next_velocity_x_abs_le _ _ _ hv, next_velocity_x_zero_or_ge _ _ _, ?_, ?_⟩
  · norm_num [mix_x, mix, max_speed]
  · norm_num [mix_x, mix, air_control, max_speed]

theorem horizontal_speed_bound_witness :
    |(update (recording_ops (fun _ => ⟨0, 0⟩)) 1
        (sample_world false 1 ⟨1 / 2, 0⟩)).dynamics.velocity.x| ≤ 1 / 2 :=
  (horizontal_speed_bound (recording_ops (fun _ => ⟨0, 0⟩)) 1 (sample_world false 1 ⟨1 / 2, 0⟩)
    (by norm_num [sample_world, abs_le])).2.1

/-- C16: from `velocity.x = 0` an action whose decoded movement is `+1` or
`-1` leaves `velocity.x = movement_x * mix_x * max_speed` after one `update`:
the blended value has exactly the magnitude of the snap threshold (0.1 on the
ground, 0.015 in the air), the strict comparison does not snap it, and it is
not zero. -/
theorem start_from_rest {TM : Type} (ops : Tilemap_Ops TM) (dt : ℚ) (w : World TM)
    (hv : w.dynamics.velocity.x = 0)
    (hm : movement_x w.agent.action = 1 ∨ movement_x w.agent.action = -1) :
    (update ops dt w).dynamics.velocity.x
      = movement_x w.agent.action * (mix_x w.agent.on_ground * max_speed) ∧
    (update ops dt w).dynamics.velocity.x ≠ 0 ∧
    |(update ops dt w).dynamics.velocity.x| = (if w.agent.on_ground then 1 / 10 else 3 / 200) ∧
    |(update ops dt w).dynamics.velocity.x| = mix_x w.agent.on_ground * max_speed := by
  rw [update_velocity]
  simp only [next_velocity_x, hv, max_speed]
  rcases mix_x_cases w.agent.on_ground with ⟨hg, hmx⟩ | ⟨hg, hmx⟩ <;>
    rcases hm with ha | ha <;>
    rw [hmx, ha, hg] <;> norm_num [abs_of_nonneg, abs_of_nonpos]

theorem start_from_rest_witness :
    (update (recording_ops (fun _ => ⟨0, 0⟩)) 1
        (sample_world true 1 ⟨0, 0⟩)).dynamics.velocity.x = 1 / 10 ∧
    (update (recording_ops (fun _ => ⟨0, 0⟩)) 1
        (sample_world false 7 ⟨0, 0⟩)).dynamics.velocity.x = -(3 / 200) := by
  have h1 := (start_from_rest (recording_ops (fun _ => ⟨0, 0⟩)) 1 (sample_world true 1 ⟨0, 0⟩)
    rfl (Or.inl (by decide))).1
  have h2 := (start_from_rest (recording_ops (fun _ => ⟨0, 0⟩)) 1 (sample_world false 7 ⟨0, 0⟩)
    rfl (Or.inr (by decide))).1
  constructor
  · rw [h1]
    norm_num [sample_world, movement_x, bool_to_int, mix_x, mix, max_speed]
  · rw [h2]
    norm_num [sample_world, movement_x, bool_to_int, mix_x, mix, air_control, max_speed]

/-! ### Vertical velocity -/

/-- An airborne step without a jump, from a speed within `max_jump`. -/
theorem next_velocity_y_airborne (action : Int) (dt vy : ℚ) (hj : jump action = false)
    (hdt : 0 ≤ dt) (hvy : |vy| ≤ 3 / 2) :
    next_velocity_y false action dt vy = max (vy - 1 / 5 * dt) (-(3 / 2)) := by
  obtain ⟨_, h2⟩ := abs_le.mp hvy
  have hg : 0 ≤ 1 / 5 * dt := mul_nonneg (by norm_num) hdt
  simp only [next_velocity_y, hj, max_jump, gravity, Bool.not_false, if_true, Bool.false_eq_true,
    if_false]
  by_cases hc : |vy - 1 / 5 * dt| > 3 / 2
  · rw [if_pos hc]
    have hneg : vy - 1 / 5 * dt < -(3 / 2) := by
      rcases lt_abs.mp hc with h | h
      · linarith
      · linarith
    have hnp : ¬ vy - 1 / 5 * dt > 0 := by linarith
    rw [if_neg hnp, max_eq_right hneg.le]
    norm_num
  · rw [if_neg hc]
    have hle := abs_le.mp (not_lt.mp hc)
    rw [max_eq_left hle.1]

/-- An airborne step from `-max_jump` stays at `-max_jump`, whatever the
action. -/
theorem next_velocity_y_fixed (action : Int) (dt : ℚ) (hdt : 0 ≤ dt) :
    next_velocity_y false action dt (-(3 / 2)) = -(3 / 2) := by
  have hg : 0 ≤ 1 / 5 * dt := mul_nonneg (by norm_num) hdt
  simp only [next_velocity_y, max_jump, gravity, Bool.not_false, if_true, ite_self]
  by_cases hc : |(-(3 / 2) : ℚ) - 1 / 5 * dt| > 3 / 2
  · rw [if_pos hc]
    have hnp : ¬ (-(3 / 2) : ℚ) - 1 / 5 * dt > 0 := by linarith
    rw [if_neg hnp]
    norm_num
  · rw [if_neg hc]
    have hle := abs_le.mp (not_lt.mp hc)
    linarith [hle.1]

/-- A jump step leaves `-max_jump`, on the ground or in the air. -/
theorem next_velocity_y_jump (on_ground : Bool) (action : Int) (dt vy : ℚ)
    (hj : jump action = true) (hdt : 0 ≤ dt) :
    next_velocity_y on_ground action dt vy = -(3 / 2) := by
  cases on_ground
  · have h := next_velocity_y_fixed action dt hdt
    simp only [next_velocity_y, hj, if_true, max_jump] at h ⊢
    norm_num at h ⊢
    exact h
  · norm_num [next_velocity_y, hj, max_jump]

/-- A grounded step without a jump keeps a speed within `max_jump`. -/
theorem next_velocity_y_grounded (action : Int) (dt vy : ℚ) (hj : jump action = false)
    (hvy : |vy| ≤ 3 / 2) : next_velocity_y true action dt vy = vy := by
  have hc : ¬ |vy| > 3 / 2 := not_lt.mpr hvy
  simp [next_velocity_y, hj, max_jump, hc]

theorem step_velocity {TM : Type} (ops : Tilemap_Ops TM) (w : World TM) (input : Int × ℚ) :
    (step ops w input).dynamics.velocity
      = ⟨next_velocity_x w.agent.on_ground input.1 w.dynamics.velocity.x,
          next_velocity_y w.agent.on_ground input.1 input.2 w.dynamics.velocity.y⟩ :=
  rfl

/-- A run entered airborne at every step keeps `velocity.y = -max_jump`. -/
theorem run_airborne_fixed {TM : Type} (ops : Tilemap_Ops TM) :
    ∀ (inputs : List (Int × ℚ)) (w : World TM), (∀ i ∈ inputs, 0 ≤ i.2) →
    w.dynamics.velocity.y = -(3 / 2) → enters_with_ground ops false w inputs →
    (run ops w inputs).dynamics.velocity.y = -(3 / 2) := by
  intro inputs
  induction inputs with
  | nil => intro w _ hv _; exact hv
  | cons i inputs ih =>
    intro w hdt hv hair
    obtain ⟨hg, hrest⟩ := hair
    have hrun : run ops w (i :: inputs) = run ops (step ops w i) inputs := rfl
    rw [hrun]
    apply ih (step ops w i) (fun j hj => hdt j (List.mem_cons_of_mem _ hj)) _ hrest
    rw [step_velocity, hg, hv]
    exact next_velocity_y_fixed i.1 i.2 (hdt i (List.mem_cons_self _ _))

/-- C17: an `update` entered with `on_ground` false, a non-jump action,
`dt ≥ 0` and `|velocity.y| ≤ 1.5` leaves `velocity.y = max(velocity.y - 0.2 * dt,
-1.5)`, which is not greater than before; `velocity.y = -1.5` is a fixed point
of such a step; a jump step (with `dt ≥ 0`) leaves `-1.5 = -max_jump`, the
direction in which gravity acts; and from `-1.5` every run whose steps are all
entered airborne keeps `velocity.y = -1.5`. -/
theorem gravity_direction {TM : Type} (ops : Tilemap_Ops TM) (dt : ℚ) (w : World TM)
    (hair : w.agent.on_ground = false) (hj : jump w.agent.action = false) (hdt : 0 ≤ dt)
    (hvy : |w.dynamics.velocity.y| ≤ 3 / 2) :
    (update ops dt w).dynamics.velocity.y = max (w.dynamics.velocity.y - 1 / 5 * dt) (-(3 / 2)) ∧
    (update ops dt w).dynamics.velocity.y ≤ w.dynamics.velocity.y ∧
    (w.dynamics.velocity.y = -(3 / 2) → (update ops dt w).dynamics.velocity.y = -(3 / 2)) ∧
    (∀ (w0 : World TM) (dt0 : ℚ), jump w0.agent.action = true → 0 ≤ dt0 →
      (update ops dt0 w0).dynamics.velocity.y = -max_jump) ∧
    (∀ (inputs : List (Int × ℚ)) (w0 : World TM), (∀ i ∈ inputs, 0 ≤ i.2) →
      w0.dynamics.velocity.y = -(3 / 2) → enters_with_ground ops false w0 inputs →
      (run ops w0 inputs).dynamics.velocity.y = -(3 / 2)) := by
  have hg : 0 ≤ 1 / 5 * dt := mul_nonneg (by norm_num) hdt
  have hval : (update ops dt w).dynamics.velocity.y
      = max (w.dynamics.velocity.y - 1 / 5 * dt) (-(3 / 2)) := by
    rw [update_velocity, hair]
    exact next_velocity_y_airborne _ dt _ hj hdt hvy
  refine ⟨hval, ?_, ?_, ?_, run_airborne_fixed ops⟩
  · rw [hval]
    exact max_le (by linarith) (abs_le.mp hvy).1
  · intro h
    rw [update_velocity, hair, h]
    exact next_velocity_y_fixed _ dt hdt
  · intro w0 dt0 hj0 hdt0
    rw [update_velocity]
    show next_velocity_y w0.agent.on_ground w0.agent.action dt0 w0.dynamics.velocity.y = -max_jump
    rw [next_velocity_y_jump _ _ _ _ hj0 hdt0]
    norm_num [max_jump]

theorem gravity_direction_witness :
    (update (recording_ops (fun _ => ⟨0, 0⟩)) 1
        (sample_world false 4 ⟨0, 1⟩)).dynamics.velocity.y = 4 / 5 ∧
    (update (recording_ops (fun _ => ⟨0, 0⟩)) 1
        (sample_world false 4 ⟨0, 1⟩)).dynamics.velocity.y ≤ 1 := by
  have h := gravity_direction (recording_ops (fun _ => ⟨0, 0⟩)) 1 (sample_world false 4 ⟨0, 1⟩)
    rfl (by decide) (by norm_num) (by norm_num [sample_world, abs_le])
  refine ⟨?_, h.2.1⟩
  rw [h.1]
  norm_num [sample_world]

/-- C18: when the query of one `update` is answered by the zero vector,
`on_ground` is true after that call, and a following `update` with an action
other than 2, 5 and 8 leaves `velocity.y` as the first call left it, for every
`dt` of either call: no gravity is applied. -/
theorem no_gravity_in_free_space {TM : Type} (ops : Tilemap_Ops TM) (dt1 dt2 : ℚ)
    (action2 : Int) (w : World TM)
    (hzero : ops.get_collision_offset (update ops dt1 w).tilemap w.collision.bounds classify
      = ⟨0, 0⟩)
    (hnj : action2 ≠ 2 ∧ action2 ≠ 5 ∧ action2 ≠ 8) :
    (update ops dt1 w).agent.on_ground = true ∧
    (step ops (update ops dt1 w) (action2, dt2)).dynamics.velocity.y
      = (update ops dt1 w).dynamics.velocity.y := by
  have hground : (update ops dt1 w).agent.on_ground = true := by
    rw [update_on_ground, hzero]
    simp
  have hj : jump action2 = false := by
    obtain ⟨h2, h5, h8⟩ := hnj
    simp [jump, h2, h5, h8]
  refine ⟨hground, ?_⟩
  rw [step_velocity, hground]
  exact next_velocity_y_grounded action2 dt2 _ hj (update_velocity_y_abs_le ops dt1 w)

theorem no_gravity_in_free_space_witness :
    (update (recording_ops (fun _ => ⟨0, 0⟩)) 1 (sample_world false 4 ⟨0, 1⟩)).agent.on_ground
      = true ∧
    (step (recording_ops (fun _ => ⟨0, 0⟩))
        (update (recording_ops (fun _ => ⟨0, 0⟩)) 1 (sample_world false 4 ⟨0, 1⟩))
        (4, 1)).dynamics.velocity.y
      = (update (recording_ops (fun _ => ⟨0, 0⟩)) 1
          (sample_world false 4 ⟨0, 1⟩)).dynamics.velocity.y :=
  no_gravity_in_free_space (recording_ops (fun _ => ⟨0, 0⟩)) 1 1 4 (sample_world false 4 ⟨0, 1⟩)
    rfl (by decide)

/-! ### Runs on the ground without movement input -/

/-- On the ground with no movement input a step scales the horizontal
velocity by `0.8` and snaps it to zero below `0.1`. -/
theorem next_velocity_x_idle (action : Int) (vx : ℚ) (ha : movement_x action = 0) :
    next_velocity_x true action vx = if |4 / 5 * vx| < 1 / 10 then 0 else 4 / 5 * vx := by
  have h1 : vx + 1 / 5 * (1 / 2 * 0 - vx) = 4 / 5 * vx := by ring
  have h2 : (1 / 5 : ℚ) * (1 / 2) = 1 / 10 := by norm_num
  simp only [next_velocity_x, mix_x, mix, max_speed, ha, if_true, h1, h2]

theorem next_velocity_x_idle_abs_le (action : Int) (vx : ℚ) (ha : movement_x action = 0) :
    |next_velocity_x true action vx| ≤ 4 / 5 * |vx| := by
  rw [next_velocity_x_idle action vx ha]
  split_ifs
  · rw [abs_zero]
    exact mul_nonneg (by norm_num) (abs_nonneg vx)
  · rw [abs_mul, abs_of_nonneg (by norm_num : (0 : ℚ) ≤ 4 / 5)]

theorem next_velocity_x_idle_small (action : Int) (vx : ℚ) (ha : movement_x action = 0)
    (hs : |vx| < 1 / 8) : next_velocity_x true action vx = 0 := by
  rw [next_velocity_x_idle action vx ha]
  have : |4 / 5 * vx| < 1 / 10 := by
    rw [abs_mul, abs_of_nonneg (by norm_num : (0 : ℚ) ≤ 4 / 5)]
    linarith
  rw [if_pos this]

theorem run_append {TM : Type} (ops : Tilemap_Ops TM) (w : World TM)
    (l1 l2 : List (Int × ℚ)) : run ops w (l1 ++ l2) = run ops (run ops w l1) l2 := by
  simp only [run, List.foldl_append]

theorem enters_with_ground_append {TM : Type} (ops : Tilemap_Ops TM) (b : Bool) :
    ∀ (l1 l2 : List (Int × ℚ)) (w : World TM), enters_with_ground ops b w (l1 ++ l2) →
    enters_with_ground ops b w l1 ∧ enters_with_ground ops b (run ops w l1) l2 := by
  intro l1
  induction l1 with
  | nil => intro l2 w h; exact ⟨trivial, h⟩
  | cons i l1 ih =>
    intro l2 w h
    obtain ⟨hg, hrest⟩ := h
    obtain ⟨h1, h2⟩ := ih l2 (step ops w i) hrest
    exact ⟨⟨hg, h1⟩, h2⟩

/-- A grounded run without movement input shrinks the horizontal speed by
`0.8` per step at least. -/
theorem run_idle_abs_le {TM : Type} (ops : Tilemap_Ops TM) :
    ∀ (inputs : List (Int × ℚ)) (w : World TM), (∀ i ∈ inputs, movement_x i.1 = 0) →
    enters_with_ground ops true w inputs →
    |(run ops w inputs).dynamics.velocity.x|
      ≤ (4 / 5) ^ inputs.length * |w.dynamics.velocity.x| := by
  intro inputs
  induction inputs with
  | nil => intro w _ _; simp [run]
  | cons i inputs ih =>
    intro w hact hground
    obtain ⟨hg, hrest⟩ := hground
    have hrun : run ops w (i :: inputs) = run ops (step ops w i) inputs := rfl
    have hstep : |(step ops w i).dynamics.velocity.x| ≤ 4 / 5 * |w.dynamics.velocity.x| := by
      rw [step_velocity, hg]
      exact next_velocity_x_idle_abs_le _ _ (hact i (List.mem_cons_self _ _))
    have hih := ih (step ops w i) (fun j hj => hact j (List.mem_cons_of_mem _ hj)) hrest
    have hpow : (0 : ℚ) ≤ (4 / 5) ^ inputs.length := pow_nonneg (by norm_num) _
    rw [hrun, List.length_cons, pow_succ]
    calc |(run ops (step ops w i) inputs).dynamics.velocity.x|
        ≤ (4 / 5) ^ inputs.length * |(step ops w i).dynamics.velocity.x| := hih
      _ ≤ (4 / 5) ^ inputs.length * (4 / 5 * |w.dynamics.velocity.x|) :=
          mul_le_mul_of_nonneg_left hstep hpow
      _ = (4 / 5) ^ inputs.length * (4 / 5) * |w.dynamics.velocity.x| := by ring

/-- A grounded run without movement input stays at rest. -/
theorem run_idle_zero {TM : Type} (ops : Tilemap_Ops TM) (inputs : List (Int × ℚ))
    (w : World TM) (hact : ∀ i ∈ inputs, movement_x i.1 = 0)
    (hground : enters_with_ground ops true w inputs) (hv : w.dynamics.velocity.x = 0) :
    (run ops w inputs).dynamics.velocity.x = 0 := by
  have h := run_idle_abs_le ops inputs w hact hground
  rw [hv, abs_zero, mul_zero] at h
  exact abs_eq_zero.mp (le_antisymm h (abs_nonneg _))

/-- With an oracle whose answers never push down, every step after the first
is entered on the ground. -/
theorem enters_with_ground_of_answer (answer : Rectangle → Vector2)
    (hanswer : ∀ box, 0 ≤ (answer box).y) :
    ∀ (inputs : List (Int × ℚ)) (w : World (List Tilemap_Call)), w.agent.on_ground = true →
    enters_with_ground (recording_ops answer) true w inputs := by
  intro inputs
  induction inputs with
  | nil => intro w _; trivial
  | cons i inputs ih =>
    intro w hg
    refine ⟨hg, ih _ ?_⟩
    show (update (recording_ops answer) i.2 _).agent.on_ground = true
    rw [update_on_ground]
    exact decide_eq_true (hanswer _)

/-- C14: for an agent that enters every step on the ground and gets only
actions whose decoded movement is 0, from any horizontal velocity of
magnitude at most `max_speed = 0.5`, `velocity.x` is exactly 0 after every run
of 8 or more calls of `update` (so after at most 8 calls and on every later
one); each such step computes `0.8 * v`, snapped to 0 below `0.1`. -/
theorem no_residual_drift {TM : Type} (ops : Tilemap_Ops TM) (w : World TM)
    (inputs : List (Int × ℚ)) (hv : |w.dynamics.velocity.x| ≤ 1 / 2)
    (hact : ∀ i ∈ inputs, movement_x i.1 = 0)
    (hground : enters_with_ground ops true w inputs) (hlen : 8 ≤ inputs.length) :
    (run ops w inputs).dynamics.velocity.x = 0 ∧
    (∀ (action : Int) (vx : ℚ), movement_x action = 0 →
      next_velocity_x true action vx = if |4 / 5 * vx| < 1 / 10 then 0 else 4 / 5 * vx) := by
  refine ⟨?_, next_velocity_x_idle⟩
  have hsplit : inputs.take 7 ++ inputs.drop 7 = inputs := List.take_append_drop 7 inputs
  have hlen7 : (inputs.take 7).length = 7 := by
    rw [List.length_take]
    omega
  cases hd : inputs.drop 7 with
  | nil =>
    have := congrArg List.length hd
    rw [List.length_drop, List.length_nil] at this
    omega
  | cons i rest =>
    rw [hd] at hsplit
    have hact7 : ∀ j ∈ inputs.take 7, movement_x j.1 = 0 :=
      fun j hj => hact j (List.mem_of_mem_take hj)
    have hacti : movement_x i.1 = 0 :=
      hact i (by rw [← hsplit]; simp)
    have hactr : ∀ j ∈ rest, movement_x j.1 = 0 :=
      fun j hj => hact j (by rw [← hsplit]; simp [hj])
    rw [← hsplit] at hground
    obtain ⟨hg7, hgtail⟩ := enters_with_ground_append ops true _ _ w hground
    obtain ⟨hgi, hgrest⟩ := hgtail
    have h7 := run_idle_abs_le ops (inputs.take 7) w hact7 hg7
    rw [hlen7] at h7
    have hsmall : |(run ops w (inputs.take 7)).dynamics.velocity.x| < 1 / 8 := by
      have hb : (4 / 5 : ℚ) ^ 7 * |w.dynamics.velocity.x| ≤ (4 / 5) ^ 7 * (1 / 2) :=
        mul_le_mul_of_nonneg_left hv (pow_nonneg (by norm_num) _)
      have hc : (4 / 5 : ℚ) ^ 7 * (1 / 2) < 1 / 8 := by norm_num
      linarith
    have hzero : (step ops (run ops w (inputs.take 7)) i).dynamics.velocity.x = 0 := by
      rw [step_velocity, hgi]
      exact next_velocity_x_idle_small _ _ hacti hsmall
    rw [← hsplit, run_append]
    have hrun : run ops (run ops w (inputs.take 7)) (i :: rest)
        = run ops (step ops (run ops w (inputs.take 7)) i) rest := rfl
    rw [hrun]
    exact run_idle_zero ops rest _ hactr hgrest hzero

theorem no_residual_drift_witness :
    (run (recording_ops (fun _ => ⟨0, 0⟩)) (sample_world true 4 ⟨1 / 2, 0⟩)
      (List.replicate 8 (4, 1))).dynamics.velocity.x = 0 := by
  refine (no_residual_drift (recording_ops (fun _ => ⟨0, 0⟩)) (sample_world true 4 ⟨1 / 2, 0⟩)
    (List.replicate 8 (4, 1)) ?_ ?_ ?_ ?_).1
  · norm_num [sample_world, abs_le]
  · intro i hi
    rw [List.eq_of_mem_replicate hi]
    decide
  · exact enters_with_ground_of_answer _ (fun _ => le_refl _) _ _ rfl
  · simp

end System_Agent

end Coinrun
